import Mathlib

/-!
IsoFS, the ISO9660 directory parser of `pcsx2/CDVD/IsoFS/IsoFS.cpp`: a shallow
embedding of `IsoDirectory` and `IsoFileDescriptor`.

* A byte (`u8`) is a `Fin 256`; a pointer `const u8* data` is the function
  `fun k => data[k]`; a `std::string` / `std::string_view` is the list of its bytes.
* `uint` counters are natural numbers reduced modulo `2 ^ 32` where the source
  computes with them.  The conversions of `GetIndexOf` (`unsigned int` to `int`) and
  of `readSector` (`uint` to `int`) are the identity: a vector index and a block
  number stay below `2 ^ 31`.
* `while` loops that the source does not bound take a `fuel` argument: the
  outcome `Outcome.outOfFuel` means that the loop was still running after
  `fuel` iterations.
* A C++ exception is the outcome `Outcome.throws`; an access the language
  leaves undefined is the outcome `Outcome.undefined`.
-/

namespace IsoFS

/-- An unsigned 8-bit value. -/
abbrev u8 := Fin 256

/-- A byte string (`std::string`, `std::string_view`). -/
abbrev Bytes := List u8

/-- The error kinds listed in section 7 of the specification.  `IsoFS.cpp` raises
`Exception::FileNotFound` only; it is embedded as `ErrorKind.FileNotFound`.  A read
of the directory data that fails is `ErrorKind.IOError`. -/
inductive ErrorKind where
  | CorruptVolume
  | FileSystemNotFound
  | FileNotFound
  | NotADirectory
  | IndexOutOfRange
  | IOError
  deriving DecidableEq, Repr

/-- What a call does: it returns a value, throws, runs into undefined behaviour
(an out-of-range `operator[]`, `front()` or `back()` of an empty container), or
is still looping when the fuel is spent. -/
inductive Outcome (α : Type) where
  | ok (a : α)
  | throws (e : ErrorKind)
  | undefined
  | outOfFuel
  deriving DecidableEq, Repr

/-- Sequencing of calls: the first outcome that is not a value ends the computation. -/
def Outcome.bind {α β : Type} (x : Outcome α) (f : α → Outcome β) : Outcome β :=
  match x with
  | .ok a => f a
  | .throws e => .throws e
  | .undefined => .undefined
  | .outOfFuel => .outOfFuel

/-- The field `date` of `IsoFileDescriptor`. -/
structure FileDate where
  year : Nat
  month : Nat
  day : Nat
  hour : Nat
  minute : Nat
  second : Nat
  gmtOffset : Nat
  deriving DecidableEq, Repr

/-- Class `IsoFileDescriptor`: the data members that `IsoFS.cpp` assigns. -/
structure IsoFileDescriptor where
  lba : Nat
  size : Nat
  date : FileDate
  flags : Nat
  name : Bytes
  deriving DecidableEq, Repr

/-- Source `IsoFileDescriptor::IsoFileDescriptor()`: `lba`, `size`, `flags` and `date` are
zeroed, `name` is the empty string. -/
def IsoFileDescriptor.default : IsoFileDescriptor :=
  { lba := 0, size := 0, date := ⟨0, 0, 0, 0, 0, 0, 0⟩, flags := 0, name := [] }

/-- Source `(u32&)data[k]`: four bytes read as one little-endian 32-bit value. -/
def readU32 (data : Nat → u8) (k : Nat) : Nat :=
  (data k).val + 256 * (data (k + 1)).val + 65536 * (data (k + 2)).val
    + 16777216 * (data (k + 3)).val

/-- Source `name.assign(reinterpret_cast<const char*>(fnsrc), fileNameLength)`. -/
def assignName (fnsrc : Nat → u8) (fileNameLength : Nat) : Bytes :=
  (List.range fileNameLength).map fnsrc

/-- Source `IsoFileDescriptor::Load(const u8* data, int length)`. -/
def IsoFileDescriptor.Load (data : Nat → u8) (_length : Nat) : IsoFileDescriptor :=
  let lba := readU32 data 2
  let size := readU32 data 10
  let date : FileDate :=
    { year := (data 18).val + 1900
      month := (data 19).val
      day := (data 20).val
      hour := (data 21).val
      minute := (data 22).val
      second := (data 23).val
      gmtOffset := (data 24).val }
  let flags := (data 25).val
  let fileNameLength := (data 32).val
  let name : Bytes :=
    if fileNameLength = 1 then
      let c := data 33
      if c.val = 0 then [46]
      else if c.val = 1 then [46, 46]
      else [c]
    else
      assignName (fun j => data (33 + j)) fileNameLength
  { lba := lba, size := size, date := date, flags := flags, name := name }

/-- Modelled from the spec: `IsoFileDescriptor::IsFile()` is declared in `IsoFS.h`,
which is not among the sources; section 3 of the specification: bit value 0x2 of
`flags` set ⇔ the entry is a directory. -/
def IsoFileDescriptor.IsFile (e : IsoFileDescriptor) : Bool :=
  (e.flags / 2) % 2 = 0

/-- Class `SectorSource`: `readSector(buffer, lba)` fills a 2048-byte buffer;
`r lba k` is the byte it stores at `buffer[k]`. -/
abbrev SectorSource := Nat → Nat → u8

/-- Modelled from the spec: class `IsoFile` (`IsoFile.h`) is not among the sources;
sections 3 and 4.2 of the specification: the data extent `{location, size}` is
`size` bytes long and is read as a flat byte stream, crossing sector boundaries
transparently via the sector source.  `IsoFile.stream r e k` is the byte at offset
`k` of the stream of a freshly opened `IsoFile(r, e)`; from offset `e.size` on the
stream has no byte. -/
def IsoFile.stream (r : SectorSource) (directoryEntry : IsoFileDescriptor) : Nat → Option u8 :=
  fun k =>
    if k < directoryEntry.size then some (r (directoryEntry.lba + k / 2048) (k % 2048))
    else none

/-- Modelled from the spec: the reads `IsoFile::read<u8>()` and `IsoFile::read(dest, len)`
of the class `IsoFile`, which is not among the sources: a read of `len` bytes at the
read position `pos` delivers the bytes at the offsets `pos` to `pos + len - 1` of
the stream when the stream has them all.  When it does not, the read fails: the
specification allows no partial reads (section 6), and section 7 has one kind for a
failed read, `IOError`. -/
def IsoFile.canRead (stream : Nat → Option u8) (pos len : Nat) : Prop :=
  ∀ k < len, (stream (pos + k)).isSome

instance (stream : Nat → Option u8) (pos len : Nat) :
    Decidable (IsoFile.canRead stream pos len) := by
  unfold IsoFile.canRead; infer_instance

/-- The byte that a read at offset `k` delivers (0 where the stream has no byte;
the loop of `Init` asks for it only where `IsoFile.canRead` holds). -/
def streamByte (stream : Nat → Option u8) (k : Nat) : u8 := (stream k).getD 0

/-- The local state of the loop of `IsoDirectory::Init`: the vector `files`, the
counter `remainingSize`, the buffer `u8 b[257]` (`b k` for `k < 257`), and the read
position of `dataStream`. -/
structure InitState where
  files : List IsoFileDescriptor
  remainingSize : Nat
  b : Nat → u8
  pos : Nat

/-- Source `b[0] = dataStream.read<u8>()`, `bytes k` being the byte at offset `k` of
the stream. -/
def readLengthByte (bytes : Nat → u8) (st : InitState) : Nat → u8 :=
  fun k => if k = 0 then bytes st.pos else st.b k

/-- Source `dataStream.read(b + 1, b[0] - 1)`, after `b[0]` has been read from position `pos`. -/
def readRecordBody (bytes : Nat → u8) (pos : Nat) (b : Nat → u8) : Nat → u8 :=
  fun k => if 1 ≤ k ∧ k < (b 0).val then bytes (pos + k) else b k

/-- One pass through the body of `while (remainingSize >= 4)` for a non-zero
length byte, all reads succeeding: the state at the end of the body. -/
def InitBody (bytes : Nat → u8) (st : InitState) : InitState :=
  let b0 := readLengthByte bytes st
  let remainingSize := (st.remainingSize + 2 ^ 32 - (b0 0).val) % 2 ^ 32
  let b1 := readRecordBody bytes st.pos b0
  { files := st.files ++ [IsoFileDescriptor.Load b1 (b1 0).val]
    remainingSize := remainingSize
    b := b1
    pos := st.pos + (b0 0).val }

/-- The reads of `Load(b, b[0])` stay inside the array `u8 b[257]`: `Load` reads
`b[2]` to `b[33]` and, for a filename length `n = b[32]` other than 1, `b[33]` to
`b[33 + n - 1]`. -/
def LoadInBuffer (b : Nat → u8) : Prop :=
  (b 32).val = 1 ∨ 33 + (b 32).val ≤ 257

instance (b : Nat → u8) : Decidable (LoadInBuffer b) := by
  unfold LoadInBuffer; infer_instance

/-- The loop `while (remainingSize >= 4) { ... }` of `IsoDirectory::Init`, and the
statement `b[0] = 0` after it.  The result is the state when `Init` returns.  A
read of `dataStream` that fails ends `Init` with that failure; a pass in which
`Load` reads behind the end of `b` is undefined. -/
def InitLoop (stream : Nat → Option u8) : Nat → InitState → Outcome InitState
  | 0, _ => .outOfFuel
  | fuel + 1, st =>
    if 4 ≤ st.remainingSize then
      if ¬ IsoFile.canRead stream st.pos 1 then .throws .IOError
      else if (streamByte stream st.pos).val = 0 then
        .ok { st with b := fun k => if k = 0 then 0 else st.b k, pos := st.pos + 1 }
      else if ¬ IsoFile.canRead stream (st.pos + 1) ((streamByte stream st.pos).val - 1) then
        .throws .IOError
      else if ¬ LoadInBuffer (InitBody (streamByte stream) st).b then .undefined
      else InitLoop stream fuel (InitBody (streamByte stream) st)
    else
      .ok { st with b := fun k => if k = 0 then 0 else st.b k }

/-- The state in which `IsoDirectory::Init` enters its loop: `files.clear()`,
`remainingSize = directoryEntry.size`, a buffer `b` with the indeterminate
contents `stack`, and a freshly opened `dataStream`. -/
def InitState.start (stack : Nat → u8) (directoryEntry : IsoFileDescriptor) : InitState :=
  { files := [], remainingSize := directoryEntry.size % 2 ^ 32, b := stack, pos := 0 }

/-- Source `IsoDirectory::Init(directoryEntry)`: the member `files` when it returns. -/
def Init (fuel : Nat) (stack : Nat → u8) (r : SectorSource)
    (directoryEntry : IsoFileDescriptor) : Outcome (List IsoFileDescriptor) :=
  (InitLoop (IsoFile.stream r directoryEntry) fuel (InitState.start stack directoryEntry)).bind
    fun st => .ok st.files

/-- The enumeration `FStype` of `IsoFS.h`. -/
inductive FStype where
  | FStype_ISO9660
  | FStype_Joliet
  deriving DecidableEq, Repr

/-- Class `IsoDirectory`: the data members `internalReader`, `files`, `m_fstype`. -/
structure IsoDirectory where
  internalReader : SectorSource
  files : List IsoFileDescriptor
  m_fstype : FStype

/-- Source `memcmp(&sector[1], "CD001", 5) == 0`. -/
def hasCD001 (sector : Nat → u8) : Bool :=
  sector 1 = 67 ∧ sector 2 = 68 ∧ sector 3 = 48 ∧ sector 4 = 48 ∧ sector 5 = 49

/-- The locals of the constructor `IsoDirectory::IsoDirectory(SectorSource&)` and the
member `m_fstype` it assigns. -/
structure ScanState where
  rootDirEntry : IsoFileDescriptor
  isValid : Bool
  done : Bool
  i : Nat
  m_fstype : FStype
  deriving DecidableEq

/-- The statement `switch (sector[0])` of the root constructor. -/
def descriptorSwitch (sector : Nat → u8) (st : ScanState) : ScanState :=
  if (sector 0).val = 0 then st
  else if (sector 0).val = 1 then
    { st with rootDirEntry := IsoFileDescriptor.Load (fun k => sector (156 + k)) 38
              isValid := true }
  else if (sector 0).val = 2 then { st with m_fstype := .FStype_Joliet }
  else if (sector 0).val = 0xff then { st with done := true }
  else st

/-- The loop `while (!done) { ... ++i; }` of the root constructor; an identifier
other than "CD001" leaves it with `break`.  The block counter `i` is a `uint`. -/
def scanLoop (r : SectorSource) : Nat → ScanState → Outcome ScanState
  | 0, _ => .outOfFuel
  | fuel + 1, st =>
    if st.done then .ok st
    else if hasCD001 (r st.i) then
      scanLoop r fuel { descriptorSwitch (r st.i) st with i := (st.i + 1) % 2 ^ 32 }
    else .ok st

/-- The state in which the root constructor enters its loop. -/
def ScanState.start : ScanState :=
  { rootDirEntry := IsoFileDescriptor.default, isValid := false, done := false, i := 16,
    m_fstype := .FStype_ISO9660 }

/-- Source `IsoDirectory::IsoDirectory(SectorSource& r)`: the root directory of an image. -/
def IsoDirectory.root (fuel : Nat) (stack : Nat → u8) (r : SectorSource) :
    Outcome IsoDirectory :=
  (scanLoop r fuel ScanState.start).bind fun st =>
    if !st.isValid then .throws .FileNotFound
    else (Init fuel stack r st.rootDirEntry).bind fun files =>
      .ok { internalReader := r, files := files, m_fstype := st.m_fstype }

/-- Source `IsoDirectory::IsoDirectory(SectorSource& r, const IsoFileDescriptor directoryEntry)`. -/
def IsoDirectory.fromEntry (fuel : Nat) (stack : Nat → u8) (r : SectorSource)
    (directoryEntry : IsoFileDescriptor) : Outcome IsoDirectory :=
  (Init fuel stack r directoryEntry).bind fun files =>
    .ok { internalReader := r, files := files, m_fstype := .FStype_ISO9660 }

/-- Source `IsoDirectory::GetEntry(int index)`: `files[index]`. -/
def IsoDirectory.GetEntry (dir : IsoDirectory) (index : Nat) : Outcome IsoFileDescriptor :=
  match dir.files[index]? with
  | some f => .ok f
  | none => .undefined

/-- The loop `for (unsigned int i = 0; i < files.size(); i++)` of `GetIndexOf`, with
`n` passes left to go and the counter at `i`, and the `throw` after it. -/
def GetIndexOfLoop (files : List IsoFileDescriptor) (fileName : Bytes) :
    Nat → Nat → Outcome Nat
  | 0, _ => .throws .FileNotFound
  | n + 1, i =>
    match files[i]? with
    | some f => if f.name = fileName then .ok i else GetIndexOfLoop files fileName n (i + 1)
    | none => .undefined

/-- Source `IsoDirectory::GetIndexOf(const std::string_view& fileName)`. -/
def IsoDirectory.GetIndexOf (dir : IsoDirectory) (fileName : Bytes) : Outcome Nat :=
  GetIndexOfLoop dir.files fileName dir.files.length 0

/-- Source `IsoDirectory::GetEntry(const std::string_view& fileName)`. -/
def IsoDirectory.GetEntryByName (dir : IsoDirectory) (fileName : Bytes) :
    Outcome IsoFileDescriptor :=
  (dir.GetIndexOf fileName).bind dir.GetEntry

/-- The loop `for (size_t index = ...; index < (parts.size() - 1); index++)` of
`FindFile`, with `n` passes left to go, the counter at `index` and the pointer `dir`
at `dir`; the result is the directory `dir` points to after the loop.  Every
directory is built on `internalReader`, the reader of the directory `FindFile` was
called on. -/
def FindFileLoop (fuel : Nat) (stack : Nat → u8) (internalReader : SectorSource)
    (parts : List Bytes) : Nat → Nat → IsoDirectory → Outcome IsoDirectory
  | 0, _, dir => .ok dir
  | n + 1, index, dir =>
    match parts[index]? with
    | none => .undefined
    | some part =>
      (dir.GetEntryByName part).bind fun info =>
        if info.IsFile then .throws .FileNotFound
        else
          (IsoDirectory.fromEntry fuel stack internalReader info).bind fun deleteme =>
            FindFileLoop fuel stack internalReader parts n (index + 1) deleteme

/-- The part of `IsoDirectory::FindFile` that follows the call of
`Path::SplitWindowsPath`, whose result is `parts`. -/
def FindFileParts (fuel : Nat) (stack : Nat → u8) (dir : IsoDirectory)
    (parts : List Bytes) : Outcome IsoFileDescriptor :=
  match parts.head? with
  | none => .undefined
  | some front =>
    match front.getLast? with
    | none => .undefined
    | some c =>
      let has_device : Bool := c = 58
      let start := if has_device then 1 else 0
      (FindFileLoop fuel stack dir.internalReader parts (parts.length - 1 - start) start
          dir).bind fun d =>
        match parts.getLast? with
        | none => .undefined
        | some back => d.GetEntryByName back

/-- Source `IsoDirectory::FindFile(const std::string_view& filePath)`.  `Path::SplitWindowsPath`
(`common/Path.h`) is not among the sources and is the parameter `SplitWindowsPath`. -/
def IsoDirectory.FindFile (SplitWindowsPath : Bytes → List Bytes) (fuel : Nat)
    (stack : Nat → u8) (dir : IsoDirectory) (filePath : Bytes) : Outcome IsoFileDescriptor :=
  if filePath.isEmpty then .throws .FileNotFound
  else FindFileParts fuel stack dir (SplitWindowsPath filePath)

/-- Source `IsoDirectory::IsFile(const std::string_view& filePath)`. -/
def IsoDirectory.IsFile (SplitWindowsPath : Bytes → List Bytes) (fuel : Nat)
    (stack : Nat → u8) (dir : IsoDirectory) (filePath : Bytes) : Outcome Bool :=
  if filePath.isEmpty then .ok false
  else (dir.FindFile SplitWindowsPath fuel stack filePath).bind fun e =>
    .ok (decide ((e.flags / 2) % 2 ≠ 1))

/-- Source `IsoDirectory::IsDir(const std::string_view& filePath)`. -/
def IsoDirectory.IsDir (SplitWindowsPath : Bytes → List Bytes) (fuel : Nat)
    (stack : Nat → u8) (dir : IsoDirectory) (filePath : Bytes) : Outcome Bool :=
  if filePath.isEmpty then .ok false
  else (dir.FindFile SplitWindowsPath fuel stack filePath).bind fun e =>
    .ok (decide ((e.flags / 2) % 2 = 1))

/-- Source `IsoDirectory::GetFileSize(const std::string_view& filePath)`. -/
def IsoDirectory.GetFileSize (SplitWindowsPath : Bytes → List Bytes) (fuel : Nat)
    (stack : Nat → u8) (dir : IsoDirectory) (filePath : Bytes) : Outcome Nat :=
  (dir.FindFile SplitWindowsPath fuel stack filePath).bind fun e => .ok e.size

/-! Definitions used to state the properties -/

/-- The entry decoded from a directory record given as the list of its bytes. -/
def decodeRecord (rec : List u8) : IsoFileDescriptor :=
  IsoFileDescriptor.Load (fun k => rec.getD k 0) rec.length

/-- A directory record that begins with its own length, is 34 to 255 bytes long and
whose file name lies inside it. -/
def WellFormedRecord (rec : List u8) : Prop :=
  34 ≤ rec.length ∧ rec.length ≤ 255 ∧ (rec.getD 0 0).val = rec.length
    ∧ (rec.getD 32 0).val + 33 ≤ rec.length

instance : DecidablePred WellFormedRecord := fun _ => by
  unfold WellFormedRecord; infer_instance

/-- The loop of `Init` makes a complete pass from `st`: it is entered with
`remainingSize >= 4`, both reads succeed, the length byte is not 0, and `Load`
stays inside the buffer. -/
def InitPassOk (stream : Nat → Option u8) (st : InitState) : Prop :=
  4 ≤ st.remainingSize ∧ IsoFile.canRead stream st.pos 1
    ∧ (streamByte stream st.pos).val ≠ 0
    ∧ IsoFile.canRead stream (st.pos + 1) ((streamByte stream st.pos).val - 1)
    ∧ LoadInBuffer (InitBody (streamByte stream) st).b

instance (stream : Nat → Option u8) (st : InitState) : Decidable (InitPassOk stream st) := by
  unfold InitPassOk; infer_instance

/-- The state of the loop of `Init` after `n` complete passes from `st`; `none` if
the loop is left before. -/
def InitPasses (stream : Nat → Option u8) : Nat → InitState → Option InitState
  | 0, st => some st
  | n + 1, st =>
    if InitPassOk stream st then InitPasses stream n (InitBody (streamByte stream) st)
    else none

/-- The root directory record of a primary volume descriptor, as the root
constructor decodes it: the record at byte offset 156 of the sector. -/
def rootRecordOf (sector : Nat → u8) : IsoFileDescriptor :=
  IsoFileDescriptor.Load (fun k => sector (156 + k)) 38

/-- One pass through the body of `while (!done)` for a sector that carries the
identifier: the `switch`, then `++i`. -/
def scanBody (r : SectorSource) (st : ScanState) : ScanState :=
  { descriptorSwitch (r st.i) st with i := (st.i + 1) % 2 ^ 32 }

/-- The state of the root constructor after `n` passes of its loop. -/
def scanPasses (r : SectorSource) : Nat → ScanState → ScanState
  | 0, st => st
  | n + 1, st => scanPasses r n (scanBody r st)

/-- What an observer sees of a constructed directory: its entries and its
filesystem kind. -/
def IsoDirectory.view (d : IsoDirectory) : List IsoFileDescriptor × FStype :=
  (d.files, d.m_fstype)

/-- The first entry of `entries` whose name is `name`, byte for byte. -/
def lookupName (entries : List IsoFileDescriptor) (name : Bytes) : Option IsoFileDescriptor :=
  entries.find? fun f => f.name = name

/-- The chain of lookups of section 4.4 of the specification, over the entries of
the directory to start in: the last segment is looked up by name and its entry is
the result; a segment before the last is looked up by name, its entry has to be a
directory (bit 0x2 of `flags` set), and the remaining segments are looked up in the
entries enumerated from that entry's extent. -/
def lookupChain (fuel : Nat) (stack : Nat → u8) (r : SectorSource) :
    List Bytes → List IsoFileDescriptor → Option IsoFileDescriptor
  | [], _ => none
  | [s], entries => lookupName entries s
  | s :: t :: rest, entries =>
    match lookupName entries s with
    | none => none
    | some e =>
      if e.flags / 2 % 2 = 1 then
        match Init fuel stack r e with
        | .ok sub => lookupChain fuel stack r (t :: rest) sub
        | _ => none
      else none

/-- The entries of the directory that the segments `segs` lead to, each segment
being looked up by name and resolving to a directory entry. -/
def entriesAt (fuel : Nat) (stack : Nat → u8) (r : SectorSource) :
    List Bytes → List IsoFileDescriptor → Option (List IsoFileDescriptor)
  | [], entries => some entries
  | s :: rest, entries =>
    match lookupName entries s with
    | none => none
    | some e =>
      if e.flags / 2 % 2 = 1 then
        match Init fuel stack r e with
        | .ok sub => entriesAt fuel stack r rest sub
        | _ => none
      else none

/-- The loop and the final lookup of `FindFile` as a recursion over the segments
that are still to be looked up, `dir` being the current directory. -/
def walkSegments (fuel : Nat) (stack : Nat → u8) (r : SectorSource) :
    List Bytes → IsoDirectory → Outcome IsoFileDescriptor
  | [], _ => .undefined
  | [s], dir => dir.GetEntryByName s
  | s :: t :: rest, dir =>
    (dir.GetEntryByName s).bind fun info =>
      if info.IsFile then .throws .FileNotFound
      else
        (IsoDirectory.fromEntry fuel stack r info).bind fun d =>
          walkSegments fuel stack r (t :: rest) d

/-- Modelled from the spec: `Path::SplitWindowsPath` (`common/Path.h`) is not among
the sources; section 4.4 of the specification: split the path on path-separator
characters into ordered segments.  The separators are `/` and `\`, and every
separator ends a segment, so that a separator at the start of the path or after
another separator leaves an empty segment. -/
def Path.SplitWindowsPath (path : Bytes) : List Bytes :=
  path.splitOnP fun c => c = 47 ∨ c = 92

/-! Example images -/

/-- A directory record with the given extent, flags and file name: 33 header bytes
followed by the name, the first byte being the record length. -/
def mkRecord (lba size flags : Nat) (name : Bytes) : List u8 :=
  [Fin.ofNat (33 + name.length), 0,
   Fin.ofNat lba, Fin.ofNat (lba / 256), Fin.ofNat (lba / 65536), Fin.ofNat (lba / 16777216),
   0, 0, 0, 0,
   Fin.ofNat size, Fin.ofNat (size / 256), Fin.ofNat (size / 65536),
   Fin.ofNat (size / 16777216),
   0, 0, 0, 0,
   100, 1, 1, 0, 0, 0, 0,
   Fin.ofNat flags,
   0, 0, 1, 0, 0, 1,
   Fin.ofNat name.length] ++ name

/-- A sector that starts with the given bytes and is zero after them. -/
def sectorOf (l : List u8) : Nat → u8 := fun k => l.getD k 0

/-- A volume descriptor of the given type: the identifier "CD001" at offsets 1 to 5
and the given root directory record at offset 156. -/
def mkDescriptor (type : u8) (rootRecord : List u8) : Nat → u8 :=
  fun k =>
    if k = 0 then type
    else if k < 6 then ([67, 68, 48, 48, 49] : List u8).getD (k - 1) 0
    else if 156 ≤ k then rootRecord.getD (k - 156) 0
    else 0

/-- The name `DIR1`. -/
def nameDIR1 : Bytes := [68, 73, 82, 49]

/-- The name `FILE1.TXT`. -/
def nameFILE1 : Bytes := [70, 73, 76, 69, 49, 46, 84, 88, 84]

/-- The name `FILE2.TXT`. -/
def nameFILE2 : Bytes := [70, 73, 76, 69, 50, 46, 84, 88, 84]

/-- The records of the root directory of `exampleImage`: `.`, `..`, `DIR1` (a
directory at block 21) and `FILE1.TXT` (a file of 1024 bytes). -/
def exampleRootRecords : List (List u8) :=
  [mkRecord 20 2048 2 [0], mkRecord 20 2048 2 [1], mkRecord 21 2048 2 nameDIR1,
   mkRecord 22 1024 0 nameFILE1]

/-- The records of the directory `DIR1` of `exampleImage`: `.`, `..` and `FILE2.TXT`
(a file of 512 bytes). -/
def exampleDir1Records : List (List u8) :=
  [mkRecord 21 2048 2 [0], mkRecord 20 2048 2 [1], mkRecord 23 512 0 nameFILE2]

/-- The image of section 8 of the specification: a primary volume descriptor at
block 16, a terminator at block 17, the root directory at block 20 and the
directory `DIR1` at block 21. -/
def exampleImage : SectorSource := fun lba =>
  if lba = 16 then mkDescriptor 1 (mkRecord 20 2048 2 [0])
  else if lba = 17 then mkDescriptor 255 []
  else if lba = 20 then sectorOf exampleRootRecords.flatten
  else if lba = 21 then sectorOf exampleDir1Records.flatten
  else fun _ => 0

/-- The root directory entry of `exampleImage`. -/
def exampleRootEntry : IsoFileDescriptor := decodeRecord (mkRecord 20 2048 2 [0])

/-- The root directory of `exampleImage`. -/
def exampleRoot : IsoDirectory :=
  { internalReader := exampleImage, files := exampleRootRecords.map decodeRecord,
    m_fstype := .FStype_ISO9660 }

/-- The image `exampleImage` with a supplementary volume descriptor (type 2) added
at block 17, before the terminator, which moves to block 18. -/
def jolietImage : SectorSource := fun lba =>
  if lba = 17 then mkDescriptor 2 (mkRecord 21 2048 2 [0])
  else if lba = 18 then mkDescriptor 255 []
  else exampleImage lba

/-- An image whose descriptor sequence is a terminator at block 16. -/
def terminatorOnlyImage : SectorSource := fun lba =>
  if lba = 16 then mkDescriptor 255 [] else fun _ => 0

/-- An image with a boot record at block 16 and a sector without the identifier
at block 17. -/
def bootThenGarbageImage : SectorSource := fun lba =>
  if lba = 16 then mkDescriptor 0 [] else fun _ => 0

/-- The image `exampleImage` with the terminator at block 17 replaced by a sector
without the identifier. -/
def primaryThenGarbageImage : SectorSource := fun lba =>
  if lba = 17 then fun _ => 0 else exampleImage lba

/-- Indeterminate buffer contents, here all zero. -/
def zeroStack : Nat → u8 := fun _ => 0

/-- An image whose directory at block 20 holds one record, a byte of padding and a
second record behind the padding. -/
def paddedImage : SectorSource := fun lba =>
  if lba = 20 then
    sectorOf (mkRecord 20 1024 0 nameFILE1 ++ [0] ++ mkRecord 21 512 0 nameFILE2)
  else fun _ => 0

/-- The image `paddedImage` without the record behind the padding. -/
def paddedImageCut : SectorSource := fun lba =>
  if lba = 20 then sectorOf (mkRecord 20 1024 0 nameFILE1) else fun _ => 0

/-- A path splitter: the segments between the separators `/` and `\`, the empty
ones left out.  `cur` is the segment being read, in reverse. -/
def splitAux : Bytes → Bytes → List Bytes
  | [], cur => if cur = [] then [] else [cur.reverse]
  | c :: cs, cur =>
    if c = 47 ∨ c = 92 then
      if cur = [] then splitAux cs [] else cur.reverse :: splitAux cs []
    else splitAux cs (c :: cur)

/-- A path splitter: the segments between the separators `/` and `\`, the empty
ones left out. -/
def splitOnSeparators (path : Bytes) : List Bytes := splitAux path []

/-- The path `DIR1/FILE2.TXT`. -/
def pathDir1File2 : Bytes := nameDIR1 ++ [47] ++ nameFILE2

/-- The path `CDROM0:/DIR1/FILE2.TXT`. -/
def pathDeviceDir1File2 : Bytes := [67, 68, 82, 79, 77, 48, 58] ++ [47] ++ pathDir1File2

/-- The path `FILE1.TXT/X`. -/
def pathFile1X : Bytes := nameFILE1 ++ [47, 88]

/-- The name `NOPE.TXT`. -/
def nameNOPE : Bytes := [78, 79, 80, 69, 46, 84, 88, 84]

/-- The path `cdrom0:`, a device token with nothing after it. -/
def pathCdrom0 : Bytes := [99, 100, 114, 111, 109, 48, 58]

/-- A directory with two entries, the first of them named `cdrom0:`. -/
def deviceNamedDir : IsoDirectory :=
  { internalReader := exampleImage
    files := [decodeRecord (mkRecord 30 16 0 pathCdrom0),
              decodeRecord (mkRecord 22 1024 0 nameFILE1)]
    m_fstype := .FStype_ISO9660 }

/-- An image whose block 20 starts with a length byte of 200, followed at offset 200
by a second length byte of 200. -/
def overrunImage : SectorSource := fun lba =>
  if lba = 20 then fun k => if k = 0 ∨ k = 200 then 200 else 0 else fun _ => 0

/-- A directory entry for block 20 with the declared size 4. -/
def overrunEntry : IsoFileDescriptor :=
  { lba := 20, size := 4, date := ⟨0, 0, 0, 0, 0, 0, 0⟩, flags := 2, name := [] }

/-- A directory entry for block 20 with the declared size 46. -/
def staleEntry : IsoFileDescriptor :=
  { lba := 20, size := 46, date := ⟨0, 0, 0, 0, 0, 0, 0⟩, flags := 2, name := [] }

/-- An image whose directory at block 20 holds the 42-byte record of `FILE1.TXT`
and after it the 4-byte record `4, 0, 0, 0`. -/
def staleImageA : SectorSource := fun lba =>
  if lba = 20 then sectorOf (mkRecord 22 1024 0 nameFILE1 ++ [4, 0, 0, 0]) else fun _ => 0

/-- An image whose directory at block 20 holds the 42-byte record of `FILE2.TXT`
and after it the 4-byte record `4, 0, 0, 0`. -/
def staleImageB : SectorSource := fun lba =>
  if lba = 20 then sectorOf (mkRecord 23 512 0 nameFILE2 ++ [4, 0, 0, 0]) else fun _ => 0

/-- An image in which every block is a boot record: the identifier "CD001" with
type 0. -/
def bootRecordsImage : SectorSource := fun _ => mkDescriptor 0 []

/-- An image with a primary volume descriptor at block 16 and a terminator at block
17 whose root directory record declares an extent of 4 bytes at block 20, and whose
block 20 starts with a length byte of 8. -/
def truncatedRootImage : SectorSource := fun lba =>
  if lba = 16 then mkDescriptor 1 (mkRecord 20 4 2 [0])
  else if lba = 17 then mkDescriptor 255 []
  else if lba = 20 then sectorOf [8]
  else fun _ => 0

/-- An image with a primary volume descriptor at block 16 and a terminator at block
17 whose root directory at block 20 starts with a record of 255 bytes that declares
a file name of 255 bytes. -/
def oversizedNameImage : SectorSource := fun lba =>
  if lba = 16 then mkDescriptor 1 (mkRecord 20 2048 2 [0])
  else if lba = 17 then mkDescriptor 255 []
  else if lba = 20 then fun k => if k = 0 ∨ k = 32 then 255 else 65
  else fun _ => 0

set_option maxRecDepth 100000

/-! Directory records and their enumeration -/

theorem Load_congr (d d' : Nat → u8) (l l' L : Nat) (hL : 34 ≤ L)
    (hn : (d 32).val + 33 ≤ L) (h : ∀ k < L, d k = d' k) :
    IsoFileDescriptor.Load d l = IsoFileDescriptor.Load d' l' := by
  have e32 : d' 32 = d 32 := (h 32 (by omega)).symm
  have e33 : d' 33 = d 33 := (h 33 (by omega)).symm
  have hname : List.map (fun j => d' (33 + j)) (List.range (d 32).val)
      = List.map (fun j => d (33 + j)) (List.range (d 32).val) := by
    apply List.map_congr_left
    intro j hj
    have := List.mem_range.1 hj
    exact (h _ (by omega)).symm
  simp only [IsoFileDescriptor.Load, readU32, assignName, e32, e33, hname]
  rw [← h 2 (by omega), ← h 3 (by omega), ← h 4 (by omega), ← h 5 (by omega),
    ← h 10 (by omega), ← h 11 (by omega), ← h 12 (by omega), ← h 13 (by omega),
    ← h 18 (by omega), ← h 19 (by omega), ← h 20 (by omega), ← h 21 (by omega),
    ← h 22 (by omega), ← h 23 (by omega), ← h 24 (by omega), ← h 25 (by omega)]

theorem canRead_one (stream : Nat → Option u8) (pos : Nat) :
    IsoFile.canRead stream pos 1 ↔ (stream pos).isSome = true := by
  constructor
  · intro h
    have := h 0 (by omega)
    simpa only [Nat.add_zero] using this
  · intro h k hk
    obtain rfl : k = 0 := by omega
    simpa only [Nat.add_zero] using h

theorem streamByte_of_some (stream : Nat → Option u8) (k : Nat) (x : u8)
    (h : stream k = some x) : streamByte stream k = x := by
  simp only [streamByte, h, Option.getD_some]

theorem InitLoop_pass (stream : Nat → Option u8) (fuel : Nat) (st : InitState)
    (h : InitPassOk stream st) :
    InitLoop stream (fuel + 1) st = InitLoop stream fuel (InitBody (streamByte stream) st) := by
  obtain ⟨h4, h1, h0, h2, h3⟩ := h
  rw [InitLoop, if_pos h4, if_neg (not_not_intro h1), if_neg h0, if_neg (not_not_intro h2),
    if_neg (not_not_intro h3)]

theorem InitLoop_records (stream : Nat → Option u8) :
    ∀ (recs : List (List u8)) (fuel : Nat) (st : InitState),
      (∀ rec ∈ recs, WellFormedRecord rec) →
      st.remainingSize < 2 ^ 32 →
      recs.flatten.length ≤ st.remainingSize →
      (∀ k < recs.flatten.length, stream (st.pos + k) = some (recs.flatten.getD k 0)) →
      (4 ≤ st.remainingSize - recs.flatten.length →
        stream (st.pos + recs.flatten.length) = some 0) →
      recs.length < fuel →
      (InitLoop stream fuel st).bind (fun s => .ok s.files)
        = .ok (st.files ++ recs.map decodeRecord) := by
  intro recs
  induction recs with
  | nil =>
    intro fuel st _ _ _ _ hzero hfuel
    obtain ⟨f, rfl⟩ : ∃ f, fuel = f + 1 := ⟨fuel - 1, by simp at hfuel; omega⟩
    simp only [List.flatten_nil, List.length_nil, Nat.sub_zero, Nat.add_zero] at hzero
    rw [InitLoop]
    by_cases h4 : 4 ≤ st.remainingSize
    · have hz := hzero h4
      have hc : IsoFile.canRead stream st.pos 1 := (canRead_one _ _).2 (by rw [hz]; rfl)
      have hb : (streamByte stream st.pos).val = 0 := by
        rw [streamByte_of_some _ _ _ hz]; rfl
      rw [if_pos h4, if_neg (not_not_intro hc), if_pos hb]
      simp [Outcome.bind]
    · rw [if_neg h4]
      simp [Outcome.bind]
  | cons rec rest ih =>
    intro fuel st hwf hlt hT hstream hzero hfuel
    obtain ⟨f, rfl⟩ : ∃ f, fuel = f + 1 := ⟨fuel - 1, by simp at hfuel; omega⟩
    obtain ⟨h34, h255, hlen, hname⟩ := hwf rec (List.mem_cons_self _ _)
    simp only [List.flatten_cons, List.length_append] at hT hstream hzero
    have hsome : ∀ k < rec.length, stream (st.pos + k) = some (rec.getD k 0) := by
      intro k hk
      rw [hstream k (by omega), List.getD_append _ _ _ _ hk]
    have hbody : ∀ k < rec.length, streamByte stream (st.pos + k) = rec.getD k 0 :=
      fun k hk => streamByte_of_some _ _ _ (hsome k hk)
    have hb0 : streamByte stream st.pos = rec.getD 0 0 := by
      have := hbody 0 (by omega)
      simpa only [Nat.add_zero] using this
    have hbuf : ∀ k < rec.length,
        readRecordBody (streamByte stream) st.pos (readLengthByte (streamByte stream) st) k
          = rec.getD k 0 := by
      intro k hk
      simp only [readRecordBody, readLengthByte, if_true, hb0, hlen]
      by_cases hk0 : k = 0
      · subst hk0; simp
      · rw [if_pos (by omega), hbody k hk]
    have hok : InitPassOk stream st := by
      refine ⟨by omega, ?_, by rw [hb0, hlen]; omega, ?_, ?_⟩
      · apply (canRead_one _ _).2
        have := hsome 0 (by omega)
        rw [Nat.add_zero] at this
        rw [this]; rfl
      · intro k hk
        rw [hb0, hlen] at hk
        rw [Nat.add_assoc, hsome (1 + k) (by omega)]; rfl
      · right
        show 33 + ((InitBody (streamByte stream) st).b 32).val ≤ 257
        have : (InitBody (streamByte stream) st).b 32 = rec.getD 32 0 := hbuf 32 (by omega)
        rw [this]; omega
    rw [InitLoop_pass stream f st hok]
    have hload : IsoFileDescriptor.Load
        (readRecordBody (streamByte stream) st.pos (readLengthByte (streamByte stream) st))
        (readRecordBody (streamByte stream) st.pos (readLengthByte (streamByte stream) st) 0).val
          = decodeRecord rec := by
      unfold decodeRecord
      apply Load_congr _ _ _ _ rec.length h34
      · rw [hbuf 32 (by omega)]; exact hname
      · exact hbuf
    have hmod : (st.remainingSize + 2 ^ 32 - rec.length) % 2 ^ 32
        = st.remainingSize - rec.length := by omega
    have := ih f (InitBody (streamByte stream) st)
      (fun r hr => hwf r (List.mem_cons_of_mem _ hr))
      (by simp only [InitBody]; exact Nat.mod_lt _ (by norm_num))
      (by simp only [InitBody, readLengthByte, if_true, hb0, hlen, hmod]; omega)
      (by intro k hk
          simp only [InitBody, readLengthByte, if_true, hb0, hlen]
          rw [Nat.add_assoc, hstream (rec.length + k) (by omega),
            List.getD_append_right _ _ _ _ (by omega)]
          congr 2; omega)
      (by simp only [InitBody, readLengthByte, if_true, hb0, hlen, hmod]
          intro h
          rw [Nat.add_assoc]
          exact hzero (by omega))
      (by simp at hfuel; omega)
    rw [this]
    simp only [InitBody, hload, List.map_cons, List.append_assoc, List.singleton_append]

theorem InitBody_pos (bytes : Nat → u8) (st : InitState) :
    (InitBody bytes st).pos = st.pos + (bytes st.pos).val := by
  simp only [InitBody, readLengthByte, if_true]

theorem InitPasses_pos (stream : Nat → Option u8) :
    ∀ (n : Nat) (st st' : InitState), InitPasses stream n st = some st' → st.pos ≤ st'.pos := by
  intro n
  induction n with
  | zero =>
    intro st st' h
    simp only [InitPasses, Option.some.injEq] at h
    subst h; exact Nat.le_refl _
  | succ n ih =>
    intro st st' h
    unfold InitPasses at h
    split at h
    · have := ih _ _ h
      rw [InitBody_pos] at this
      omega
    · cases h

theorem InitPasses_files (stream : Nat → Option u8) :
    ∀ (n : Nat) (st st' : InitState), InitPasses stream n st = some st' →
      st'.files.length = st.files.length + n := by
  intro n
  induction n with
  | zero =>
    intro st st' h
    simp only [InitPasses, Option.some.injEq] at h
    subst h; rfl
  | succ n ih =>
    intro st st' h
    unfold InitPasses at h
    split at h
    · have := ih _ _ h
      simp only [InitBody, List.length_append, List.length_singleton] at this
      omega
    · cases h

theorem InitBody_congr (stream stream' : Nat → u8) (st : InitState)
    (h : ∀ k, st.pos ≤ k → k < st.pos + (stream st.pos).val → stream' k = stream k) :
    (stream st.pos).val ≠ 0 → InitBody stream' st = InitBody stream st := by
  intro hnz
  have h0 : stream' st.pos = stream st.pos := h _ (Nat.le_refl _) (by omega)
  have hb : readRecordBody stream' st.pos (readLengthByte stream' st)
      = readRecordBody stream st.pos (readLengthByte stream st) := by
    funext k
    simp only [readRecordBody, readLengthByte, if_true, h0]
    by_cases hk : 1 ≤ k ∧ k < (stream st.pos).val
    · rw [if_pos hk, if_pos hk]; exact h _ (by omega) (by omega)
    · rw [if_neg hk, if_neg hk]
  simp only [InitBody, hb]
  simp only [readLengthByte, if_true, h0]

theorem InitPassOk_congr (stream stream' : Nat → Option u8) (st : InitState)
    (h : ∀ k, st.pos ≤ k → k < st.pos + (streamByte stream st.pos).val → stream' k = stream k)
    (hok : InitPassOk stream st) :
    InitPassOk stream' st
      ∧ InitBody (streamByte stream') st = InitBody (streamByte stream) st := by
  obtain ⟨h4, h1, h0, h2, h3⟩ := hok
  have e0 : stream' st.pos = stream st.pos := h _ (Nat.le_refl _) (by omega)
  have eb : streamByte stream' st.pos = streamByte stream st.pos := by
    simp only [streamByte, e0]
  have hbody : InitBody (streamByte stream') st = InitBody (streamByte stream) st :=
    InitBody_congr (streamByte stream) (streamByte stream') st
      (fun k hk1 hk2 => by simp only [streamByte, h k hk1 hk2]) h0
  refine ⟨⟨h4, ?_, by rw [eb]; exact h0, ?_, by rw [hbody]; exact h3⟩, hbody⟩
  · apply (canRead_one _ _).2
    rw [e0]
    exact (canRead_one _ _).1 h1
  · rw [eb]
    intro k hk
    rw [h _ (by omega) (by omega)]
    exact h2 k hk

theorem InitPasses_congr (stream stream' : Nat → Option u8) :
    ∀ (n : Nat) (st st' : InitState), InitPasses stream n st = some st' →
      (∀ k < st'.pos, stream' k = stream k) → InitPasses stream' n st = some st' := by
  intro n
  induction n with
  | zero => intro st st' h _; simpa only [InitPasses] using h
  | succ n ih =>
    intro st st' h hagree
    unfold InitPasses at h ⊢
    split at h
    · rename_i hc
      have hpos := InitPasses_pos stream n _ _ h
      rw [InitBody_pos] at hpos
      obtain ⟨hc', hb⟩ := InitPassOk_congr stream stream' st
        (fun k _ hk => hagree k (by omega)) hc
      rw [if_pos hc', hb]
      exact ih _ _ h hagree
    · cases h

theorem InitLoop_passes (stream : Nat → Option u8) :
    ∀ (n fuel : Nat) (st st' : InitState), InitPasses stream n st = some st' →
      InitLoop stream (n + fuel) st = InitLoop stream fuel st' := by
  intro n
  induction n with
  | zero =>
    intro fuel st st' h
    simp only [InitPasses, Option.some.injEq] at h
    subst h; simp
  | succ n ih =>
    intro fuel st st' h
    unfold InitPasses at h
    split at h
    · rename_i hc
      rw [show n + 1 + fuel = (n + fuel) + 1 by omega, InitLoop_pass stream _ st hc]
      exact ih fuel _ _ h
    · cases h

theorem InitLoop_zero_byte (stream : Nat → Option u8) (fuel : Nat) (st : InitState)
    (hrem : 4 ≤ st.remainingSize) (hzero : stream st.pos = some 0) :
    (InitLoop stream (fuel + 1) st).bind (fun s => .ok s.files) = .ok st.files := by
  have hc : IsoFile.canRead stream st.pos 1 := (canRead_one _ _).2 (by rw [hzero]; rfl)
  have hb : (streamByte stream st.pos).val = 0 := by
    rw [streamByte_of_some _ _ _ hzero]; rfl
  rw [InitLoop, if_pos hrem, if_neg (not_not_intro hc), if_pos hb]
  rfl

/-! The volume descriptor scan -/

theorem scanLoop_step (r : SectorSource) (fuel : Nat) (st : ScanState)
    (hdone : st.done = false) (hid : hasCD001 (r st.i) = true) :
    scanLoop r (fuel + 1) st = scanLoop r fuel (scanBody r st) := by
  rw [scanLoop]
  simp only [hdone, hid, if_true, scanBody]
  rfl

theorem scanLoop_break (r : SectorSource) (fuel : Nat) (st : ScanState)
    (hdone : st.done = false) (hid : hasCD001 (r st.i) = false) :
    scanLoop r (fuel + 1) st = .ok st := by
  rw [scanLoop]
  simp [hdone, hid]

theorem scanLoop_done (r : SectorSource) (fuel : Nat) (st : ScanState)
    (hdone : st.done = true) : scanLoop r (fuel + 1) st = .ok st := by
  rw [scanLoop]
  simp [hdone]

theorem scanBody_i (r : SectorSource) (st : ScanState) (h : st.i + 1 < 2 ^ 32) :
    (scanBody r st).i = st.i + 1 := by
  simp only [scanBody]
  exact Nat.mod_eq_of_lt h

theorem scanBody_done (r : SectorSource) (st : ScanState) (h : (r st.i 0).val ≠ 255) :
    (scanBody r st).done = st.done := by
  simp only [scanBody, descriptorSwitch]
  split_ifs <;> rfl

theorem scanBody_not_primary (r : SectorSource) (st : ScanState) (h : (r st.i 0).val ≠ 1) :
    (scanBody r st).isValid = st.isValid
      ∧ (scanBody r st).rootDirEntry = st.rootDirEntry := by
  simp only [scanBody, descriptorSwitch]
  split_ifs <;> exact ⟨rfl, rfl⟩

theorem scanBody_terminator (r : SectorSource) (st : ScanState) (h : (r st.i 0).val = 255) :
    scanBody r st = { st with done := true, i := (st.i + 1) % 2 ^ 32 } := by
  simp [scanBody, descriptorSwitch, h]

theorem scanBody_supplementary (r : SectorSource) (st : ScanState) (h : (r st.i 0).val = 2) :
    scanBody r st = { st with m_fstype := .FStype_Joliet, i := (st.i + 1) % 2 ^ 32 } := by
  simp [scanBody, descriptorSwitch, h]

theorem scanPasses_i (r : SectorSource) :
    ∀ (n : Nat) (st : ScanState), st.i + n < 2 ^ 32 → (scanPasses r n st).i = st.i + n := by
  intro n
  induction n with
  | zero => intro st _; rfl
  | succ n ih =>
    intro st h
    have h1 := scanBody_i r st (by omega)
    rw [scanPasses, ih _ (by omega), h1]
    omega

theorem scanPasses_done (r : SectorSource) :
    ∀ (n : Nat) (st : ScanState), st.i + n < 2 ^ 32 →
      (∀ k < n, (r (st.i + k) 0).val ≠ 255) → (scanPasses r n st).done = st.done := by
  intro n
  induction n with
  | zero => intro st _ _; rfl
  | succ n ih =>
    intro st h hk
    have h1 := scanBody_i r st (by omega)
    rw [scanPasses, ih _ (by omega), scanBody_done r st (hk 0 (by omega))]
    intro k hkn
    rw [h1, Nat.add_assoc, Nat.add_comm 1 k]
    exact hk (k + 1) (by omega)

theorem scanPasses_not_primary (r : SectorSource) :
    ∀ (n : Nat) (st : ScanState), st.i + n < 2 ^ 32 →
      (∀ k < n, (r (st.i + k) 0).val ≠ 1) →
      (scanPasses r n st).isValid = st.isValid
        ∧ (scanPasses r n st).rootDirEntry = st.rootDirEntry := by
  intro n
  induction n with
  | zero => intro st _ _; exact ⟨rfl, rfl⟩
  | succ n ih =>
    intro st h hk
    have h1 := scanBody_i r st (by omega)
    have h2 := scanBody_not_primary r st (hk 0 (by omega))
    have h3 := ih (scanBody r st) (by omega) (by
      intro k hkn
      rw [h1, Nat.add_assoc, Nat.add_comm 1 k]
      exact hk (k + 1) (by omega))
    rw [scanPasses]
    exact ⟨h3.1.trans h2.1, h3.2.trans h2.2⟩

theorem scanLoop_passes (r : SectorSource) :
    ∀ (n fuel : Nat) (st : ScanState), st.done = false → st.i + n < 2 ^ 32 →
      (∀ k < n, hasCD001 (r (st.i + k)) = true ∧ (r (st.i + k) 0).val ≠ 255) →
      scanLoop r (n + fuel) st = scanLoop r fuel (scanPasses r n st) := by
  intro n
  induction n with
  | zero => intro fuel st _ _ _; simp [scanPasses]
  | succ n ih =>
    intro fuel st hdone h hk
    have h1 := scanBody_i r st (by omega)
    have h0 := hk 0 (by omega)
    rw [show n + 1 + fuel = (n + fuel) + 1 by omega, scanLoop_step r _ st hdone h0.1,
      scanPasses]
    apply ih
    · rw [scanBody_done r st h0.2]; exact hdone
    · omega
    · intro k hkn
      rw [h1, Nat.add_assoc, Nat.add_comm 1 k]
      exact hk (k + 1) (by omega)

theorem scanLoop_terminator (r : SectorSource) (fuel : Nat) (st : ScanState)
    (hdone : st.done = false) (hid : hasCD001 (r st.i) = true)
    (h : (r st.i 0).val = 255) :
    scanLoop r (fuel + 2) st = .ok { st with done := true, i := (st.i + 1) % 2 ^ 32 } := by
  rw [scanLoop_step r _ st hdone hid, scanBody_terminator r st h, scanLoop_done]
  rfl

theorem scanPasses_add (r : SectorSource) :
    ∀ (a b : Nat) (st : ScanState),
      scanPasses r (a + b) st = scanPasses r b (scanPasses r a st) := by
  intro a
  induction a with
  | zero => intro b st; simp [scanPasses]
  | succ a ih =>
    intro b st
    rw [show a + 1 + b = (a + b) + 1 by omega, scanPasses, scanPasses, ih]

theorem scanPasses_congr (r r' : SectorSource) :
    ∀ (n : Nat) (st : ScanState), st.i + n < 2 ^ 32 →
      (∀ k < n, r' (st.i + k) = r (st.i + k)) → scanPasses r' n st = scanPasses r n st := by
  intro n
  induction n with
  | zero => intro st _ _; rfl
  | succ n ih =>
    intro st h hk
    have h1 := scanBody_i r st (by omega)
    have hb : scanBody r' st = scanBody r st := by
      have := hk 0 (by omega)
      simp only [Nat.add_zero] at this
      simp only [scanBody, this]
    rw [scanPasses, scanPasses, hb]
    apply ih
    · omega
    · intro k hkn
      rw [h1, Nat.add_assoc, Nat.add_comm 1 k]
      exact hk (k + 1) (by omega)

theorem scanBody_shift (r r' : SectorSource) (st st' : ScanState)
    (hs : r' st'.i = r st.i)
    (h1 : st'.rootDirEntry = st.rootDirEntry) (h2 : st'.isValid = st.isValid)
    (h3 : st'.done = st.done) (h4 : st'.m_fstype = .FStype_Joliet) :
    (scanBody r' st').rootDirEntry = (scanBody r st).rootDirEntry
      ∧ (scanBody r' st').isValid = (scanBody r st).isValid
      ∧ (scanBody r' st').done = (scanBody r st).done
      ∧ (scanBody r' st').m_fstype = .FStype_Joliet := by
  simp only [scanBody, descriptorSwitch, hs]
  split_ifs <;> simp [h1, h2, h3, h4]

theorem scanPasses_shift (r r' : SectorSource) :
    ∀ (m : Nat) (st st' : ScanState),
      st'.rootDirEntry = st.rootDirEntry → st'.isValid = st.isValid →
      st'.done = st.done → st'.m_fstype = .FStype_Joliet →
      st.i + m < 2 ^ 32 → st'.i + m < 2 ^ 32 →
      (∀ k < m, r' (st'.i + k) = r (st.i + k)) →
      (scanPasses r' m st').rootDirEntry = (scanPasses r m st).rootDirEntry
        ∧ (scanPasses r' m st').isValid = (scanPasses r m st).isValid
        ∧ (scanPasses r' m st').done = (scanPasses r m st).done
        ∧ (scanPasses r' m st').m_fstype = .FStype_Joliet := by
  intro m
  induction m with
  | zero => intro st st' h1 h2 h3 h4 _ _ _; exact ⟨h1, h2, h3, h4⟩
  | succ m ih =>
    intro st st' h1 h2 h3 h4 hi hi' hk
    have e := scanBody_i r st (by omega)
    have e' := scanBody_i r' st' (by omega)
    have hs : r' st'.i = r st.i := by
      have := hk 0 (by omega)
      simpa only [Nat.add_zero] using this
    obtain ⟨b1, b2, b3, b4⟩ := scanBody_shift r r' st st' hs h1 h2 h3 h4
    rw [scanPasses, scanPasses]
    apply ih _ _ b1 b2 b3 b4 (by omega) (by omega)
    intro k hkm
    rw [e, e', Nat.add_assoc, Nat.add_assoc, Nat.add_comm 1 k]
    exact hk (k + 1) (by omega)

theorem scanPasses_root_inv (r : SectorSource) (Q : IsoFileDescriptor → Prop) :
    ∀ (n : Nat) (st : ScanState), st.i + n < 2 ^ 32 →
      (st.isValid = true → Q st.rootDirEntry) →
      (∀ k < n, (r (st.i + k) 0).val = 1 → Q (rootRecordOf (r (st.i + k)))) →
      (scanPasses r n st).isValid = true → Q (scanPasses r n st).rootDirEntry := by
  intro n
  induction n with
  | zero => intro st _ h _; exact h
  | succ n ih =>
    intro st hi h hk
    have e := scanBody_i r st (by omega)
    rw [scanPasses]
    apply ih _ (by omega)
    · have h0 := hk 0 (by omega)
      simp only [Nat.add_zero] at h0
      simp only [scanBody, descriptorSwitch]
      split_ifs with c0 c1 c2 c3
      · exact h
      · intro _; exact h0 c1
      · exact h
      · exact h
      · exact h
    · intro k hkn
      rw [e, Nat.add_assoc, Nat.add_comm 1 k]
      exact hk (k + 1) (by omega)

theorem Init_congr (fuel : Nat) (stack : Nat → u8) (r r' : SectorSource)
    (e : IsoFileDescriptor) (h : ∀ x, IsoFile.stream r' e x = IsoFile.stream r e x) :
    Init fuel stack r' e = Init fuel stack r e := by
  have : IsoFile.stream r' e = IsoFile.stream r e := funext h
  simp only [Init, this]

/-! Lookup by name and path resolution -/

theorem Outcome.bind_assoc {α β γ : Type} (x : Outcome α) (f : α → Outcome β)
    (g : β → Outcome γ) : (x.bind f).bind g = x.bind fun a => (f a).bind g := by
  cases x <;> rfl

theorem GetIndexOfLoop_find (dir : IsoDirectory) (fileName : Bytes) :
    ∀ (n i : Nat), i + n = dir.files.length →
      (GetIndexOfLoop dir.files fileName n i).bind dir.GetEntry
        = match lookupName (dir.files.drop i) fileName with
          | some e => .ok e
          | none => .throws .FileNotFound := by
  intro n
  induction n with
  | zero =>
    intro i hi
    rw [List.drop_eq_nil_of_le (by omega)]
    rfl
  | succ n ih =>
    intro i hi
    have hlt : i < dir.files.length := by omega
    rw [List.drop_eq_getElem_cons hlt, GetIndexOfLoop, List.getElem?_eq_getElem hlt]
    simp only [lookupName, List.find?_cons]
    by_cases hname : dir.files[i].name = fileName
    · simp [hname, Outcome.bind, IsoDirectory.GetEntry, List.getElem?_eq_getElem hlt]
    · simp only [hname, if_false, decide_False]
      exact ih (i + 1) (by omega)

theorem GetEntryByName_eq (dir : IsoDirectory) (fileName : Bytes) :
    dir.GetEntryByName fileName
      = match lookupName dir.files fileName with
        | some e => .ok e
        | none => .throws .FileNotFound := by
  have := GetIndexOfLoop_find dir fileName dir.files.length 0 (by omega)
  simpa only [IsoDirectory.GetEntryByName, IsoDirectory.GetIndexOf, List.drop_zero] using this

theorem walkSegments_cons (fuel : Nat) (stack : Nat → u8) (r : SectorSource) (s : Bytes)
    (l : List Bytes) (dir : IsoDirectory) (hl : l ≠ []) :
    walkSegments fuel stack r (s :: l) dir
      = (dir.GetEntryByName s).bind fun info =>
          if info.IsFile then .throws .FileNotFound
          else (IsoDirectory.fromEntry fuel stack r info).bind fun d =>
            walkSegments fuel stack r l d := by
  cases l with
  | nil => exact absurd rfl hl
  | cons t rest => rw [walkSegments]

theorem FindFileLoop_walk (fuel : Nat) (stack : Nat → u8) (r : SectorSource) :
    ∀ (l pre : List Bytes) (dir : IsoDirectory), l ≠ [] →
      (FindFileLoop fuel stack r (pre ++ l) (l.length - 1) pre.length dir).bind
          (fun d => match (pre ++ l).getLast? with
            | none => .undefined
            | some back => d.GetEntryByName back)
        = walkSegments fuel stack r l dir := by
  intro l
  induction l with
  | nil => intro pre dir h; exact absurd rfl h
  | cons s l ih =>
    intro pre dir _
    cases l with
    | nil =>
      simp only [List.length_singleton, Nat.sub_self, FindFileLoop, Outcome.bind,
        List.getLast?_append, List.getLast?_singleton, walkSegments]
      rfl
    | cons t rest =>
      have hidx : (pre ++ s :: t :: rest)[pre.length]? = some s := by
        rw [List.getElem?_append_right (Nat.le_refl _)]
        simp
      have hlen : (s :: t :: rest).length - 1 = (t :: rest).length - 1 + 1 := by
        simp
      rw [hlen, FindFileLoop, hidx, walkSegments]
      simp only [Outcome.bind_assoc]
      congr 1
      funext info
      cases info.IsFile
      · simp only [Bool.false_eq_true, if_false, Outcome.bind_assoc]
        congr 1
        funext d
        have := ih (pre ++ [s]) d (by simp)
        simp only [List.append_assoc, List.singleton_append, List.length_append,
          List.length_singleton] at this
        exact this
      · simp only [if_true, Outcome.bind]

theorem FindFileParts_no_device (fuel : Nat) (stack : Nat → u8) (dir : IsoDirectory)
    (s : Bytes) (segs : List Bytes) (c : u8) (hs : s.getLast? = some c) (hc : c ≠ 58) :
    FindFileParts fuel stack dir (s :: segs)
      = walkSegments fuel stack dir.internalReader (s :: segs) dir := by
  have := FindFileLoop_walk fuel stack dir.internalReader (s :: segs) [] dir (by simp)
  simp only [List.nil_append, List.length_nil] at this
  simp only [FindFileParts, List.head?_cons, hs, hc, decide_False, Bool.false_eq_true,
    if_false, Nat.sub_zero]
  exact this

theorem FindFileParts_device (fuel : Nat) (stack : Nat → u8) (dir : IsoDirectory)
    (dev : Bytes) (l : List Bytes) (hdev : dev.getLast? = some 58) (hl : l ≠ []) :
    FindFileParts fuel stack dir (dev :: l)
      = walkSegments fuel stack dir.internalReader l dir := by
  have := FindFileLoop_walk fuel stack dir.internalReader l [dev] dir hl
  simp only [List.singleton_append, List.length_singleton] at this
  simp only [FindFileParts, List.head?_cons, hdev, decide_True, if_true, List.length_cons,
    Nat.add_sub_cancel]
  exact this

theorem walkSegments_chain (fuel : Nat) (stack : Nat → u8) (r : SectorSource)
    (e : IsoFileDescriptor) :
    ∀ (l : List Bytes) (dir : IsoDirectory),
      walkSegments fuel stack r l dir = .ok e ↔ lookupChain fuel stack r l dir.files = some e := by
  intro l
  induction l with
  | nil => intro dir; simp [walkSegments, lookupChain]
  | cons s l ih =>
    intro dir
    cases l with
    | nil =>
      rw [walkSegments, lookupChain, GetEntryByName_eq]
      cases lookupName dir.files s <;> simp
    | cons t rest =>
      rw [walkSegments, lookupChain, GetEntryByName_eq]
      cases hfind : lookupName dir.files s with
      | none => simp [Outcome.bind]
      | some info =>
        simp only [Outcome.bind, IsoFileDescriptor.IsFile]
        have hbit : info.flags / 2 % 2 = 0 ∨ info.flags / 2 % 2 = 1 := by omega
        rcases hbit with hb | hb
        · simp [hb]
        · simp only [hb, decide_False, Bool.false_eq_true, if_false, if_true, one_ne_zero,
            IsoDirectory.fromEntry]
          cases hinit : Init fuel stack r info with
          | ok sub =>
            simpa only [Outcome.bind] using
              ih { internalReader := r, files := sub, m_fstype := .FStype_ISO9660 }
          | throws x => simp [Outcome.bind]
          | undefined => simp [Outcome.bind]
          | outOfFuel => simp [Outcome.bind]

theorem walkSegments_file (fuel : Nat) (stack : Nat → u8) (r : SectorSource)
    (s t : Bytes) (rest : List Bytes) (e : IsoFileDescriptor) (entries : List IsoFileDescriptor)
    (hfind : lookupName entries s = some e) (hfile : e.flags / 2 % 2 = 0) :
    ∀ (pre : List Bytes) (dir : IsoDirectory),
      entriesAt fuel stack r pre dir.files = some entries →
      walkSegments fuel stack r (pre ++ s :: t :: rest) dir = .throws .FileNotFound := by
  intro pre
  induction pre with
  | nil =>
    intro dir h
    simp only [entriesAt, Option.some.injEq] at h
    rw [List.nil_append, walkSegments, GetEntryByName_eq, h, hfind]
    simp [Outcome.bind, IsoFileDescriptor.IsFile, hfile]
  | cons p pre ih =>
    intro dir h
    rw [List.cons_append, walkSegments_cons _ _ _ _ _ _ (by simp), GetEntryByName_eq]
    rw [entriesAt] at h
    cases hp : lookupName dir.files p with
    | none => rfl
    | some info =>
      rw [hp] at h
      simp only at h
      by_cases hb : info.flags / 2 % 2 = 1
      · rw [if_pos hb] at h
        have hnf : info.IsFile = false := by simp [IsoFileDescriptor.IsFile, hb]
        simp only [Outcome.bind, hnf, Bool.false_eq_true, if_false, IsoDirectory.fromEntry]
        cases hinit : Init fuel stack r info with
        | ok sub =>
          rw [hinit] at h
          exact ih { internalReader := r, files := sub, m_fstype := .FStype_ISO9660 } h
        | throws x => rw [hinit] at h; cases h
        | undefined => rw [hinit] at h; cases h
        | outOfFuel => rw [hinit] at h; cases h
      · rw [if_neg hb] at h; cases h

/-! The properties of the specification -/

/-- C1: for a path split into the segments `s :: segs` whose first segment does not
end in `:`, `FindFile` returns the entry `e` exactly when the chain of lookups
yields `e`: the first segment looked up by name in the entries of the directory,
the next one in the entries enumerated from the extent of that entry (a directory
entry), and so on, the last lookup giving the result. -/
theorem FindFile_follows_segments (SplitWindowsPath : Bytes → List Bytes) (fuel : Nat)
    (stack : Nat → u8) (dir : IsoDirectory) (filePath s : Bytes) (segs : List Bytes) (c : u8)
    (e : IsoFileDescriptor)
    (hpath : filePath ≠ [])
    (hsplit : SplitWindowsPath filePath = s :: segs)
    (hlast : s.getLast? = some c) (hnodev : c ≠ 58) :
    dir.FindFile SplitWindowsPath fuel stack filePath = .ok e
      ↔ lookupChain fuel stack dir.internalReader (s :: segs) dir.files = some e := by
  have hne : filePath.isEmpty = false := by
    cases filePath with
    | nil => exact absurd rfl hpath
    | cons _ _ => rfl
  rw [IsoDirectory.FindFile, hne, hsplit]
  simp only [Bool.false_eq_true, if_false]
  rw [FindFileParts_no_device fuel stack dir s segs c hlast hnodev]
  exact walkSegments_chain fuel stack dir.internalReader e (s :: segs) dir

theorem FindFile_follows_segments_witness :
    exampleRoot.FindFile splitOnSeparators 5 zeroStack pathDir1File2
        = .ok (decodeRecord (mkRecord 23 512 0 nameFILE2))
      ∧ (decodeRecord (mkRecord 23 512 0 nameFILE2)).size = 512 :=
  ⟨(FindFile_follows_segments splitOnSeparators 5 zeroStack exampleRoot pathDir1File2
      nameDIR1 [nameFILE2] 49 (decodeRecord (mkRecord 23 512 0 nameFILE2))
      (by decide) (by decide) (by decide) (by decide)).2 (by decide), by decide⟩

/-- C2: when a path splits into `s :: segs`, the first segment not ending in `:`,
and a second path splits into the same segments preceded by a device segment (one
ending in `:`), `FindFile` has the same outcome on both, the same entry or the same
failure: the device segment is not looked up. -/
theorem FindFile_ignores_device (SplitWindowsPath : Bytes → List Bytes) (fuel : Nat)
    (stack : Nat → u8) (dir : IsoDirectory) (filePath devicePath dev s : Bytes)
    (segs : List Bytes) (c : u8)
    (hpath : filePath ≠ []) (hpath' : devicePath ≠ [])
    (hsplit : SplitWindowsPath filePath = s :: segs)
    (hsplit' : SplitWindowsPath devicePath = dev :: s :: segs)
    (hdev : dev.getLast? = some 58)
    (hlast : s.getLast? = some c) (hnodev : c ≠ 58) :
    dir.FindFile SplitWindowsPath fuel stack devicePath
      = dir.FindFile SplitWindowsPath fuel stack filePath := by
  have hne : filePath.isEmpty = false := by
    cases filePath with
    | nil => exact absurd rfl hpath
    | cons _ _ => rfl
  have hne' : devicePath.isEmpty = false := by
    cases devicePath with
    | nil => exact absurd rfl hpath'
    | cons _ _ => rfl
  rw [IsoDirectory.FindFile, IsoDirectory.FindFile, hne, hne', hsplit, hsplit']
  simp only [Bool.false_eq_true, if_false]
  rw [FindFileParts_no_device fuel stack dir s segs c hlast hnodev,
    FindFileParts_device fuel stack dir dev (s :: segs) hdev (by simp)]

theorem FindFile_ignores_device_witness :
    exampleRoot.FindFile splitOnSeparators 5 zeroStack pathDeviceDir1File2
      = exampleRoot.FindFile splitOnSeparators 5 zeroStack pathDir1File2 :=
  FindFile_ignores_device splitOnSeparators 5 zeroStack exampleRoot pathDir1File2
    pathDeviceDir1File2 [67, 68, 82, 79, 77, 48, 58] nameDIR1 [nameFILE2] 49
    (by decide) (by decide) (by decide) (by decide) (by decide) (by decide) (by decide)

/-- C3, amended: when the segments of a path, after an optional device segment, are
`pre ++ s :: t :: rest`, the segments `pre` lead through directories to a directory
in which `s` resolves to an entry whose directory bit (0x2) is clear, `FindFile`
throws, and what it throws is `FileNotFound`. -/
theorem FindFile_through_file_throws (SplitWindowsPath : Bytes → List Bytes) (fuel : Nat)
    (stack : Nat → u8) (dir : IsoDirectory) (filePath : Bytes)
    (device pre : List Bytes) (s t : Bytes) (rest : List Bytes)
    (entries : List IsoFileDescriptor) (e : IsoFileDescriptor)
    (hpath : filePath ≠ [])
    (hsplit : SplitWindowsPath filePath = device ++ (pre ++ s :: t :: rest))
    (hdevice : (device = [] ∧ ∃ c, (pre ++ [s]).head?.bind List.getLast? = some c ∧ c ≠ 58)
      ∨ (∃ dev, device = [dev] ∧ dev.getLast? = some 58))
    (hreach : entriesAt fuel stack dir.internalReader pre dir.files = some entries)
    (hfind : lookupName entries s = some e)
    (hfile : e.flags / 2 % 2 = 0) :
    dir.FindFile SplitWindowsPath fuel stack filePath = .throws .FileNotFound := by
  have hne : filePath.isEmpty = false := by
    cases filePath with
    | nil => exact absurd rfl hpath
    | cons _ _ => rfl
  have hwalk := walkSegments_file fuel stack dir.internalReader s t rest e entries hfind hfile
    pre dir hreach
  rw [IsoDirectory.FindFile, hne, hsplit]
  simp only [Bool.false_eq_true, if_false]
  rcases hdevice with ⟨rfl, c, hc, hnodev⟩ | ⟨dev, rfl, hdev⟩
  · rw [List.nil_append]
    cases pre with
    | nil =>
      simp only [List.nil_append, List.head?_cons, Option.some_bind] at hc
      rw [List.nil_append] at hwalk ⊢
      rw [FindFileParts_no_device fuel stack dir s (t :: rest) c hc hnodev]
      exact hwalk
    | cons p pre =>
      simp only [List.cons_append, List.head?_cons, Option.some_bind] at hc
      rw [List.cons_append] at hwalk ⊢
      rw [FindFileParts_no_device fuel stack dir p _ c hc hnodev]
      exact hwalk
  · rw [List.singleton_append, FindFileParts_device fuel stack dir dev _ hdev (by simp)]
    exact hwalk

theorem FindFile_through_file_throws_witness :
    exampleRoot.FindFile splitOnSeparators 5 zeroStack pathFile1X = .throws .FileNotFound :=
  FindFile_through_file_throws splitOnSeparators 5 zeroStack exampleRoot pathFile1X
    [] [] nameFILE1 [88] [] exampleRoot.files (decodeRecord (mkRecord 22 1024 0 nameFILE1))
    (by decide) (by decide) (Or.inl ⟨rfl, 84, by decide, by decide⟩) (by decide) (by decide)
    (by decide)

/-- C3, as stated, fails: for the path `FILE1.TXT/X` on the example image, whose
first segment resolves to an entry with the directory bit clear, `FindFile` throws
`FileNotFound`, not `NotADirectory`. -/
theorem FindFile_through_file_not_NotADirectory :
    splitOnSeparators pathFile1X = [nameFILE1, [88]]
      ∧ (lookupName exampleRoot.files nameFILE1).map (fun e => e.flags / 2 % 2) = some 0
      ∧ exampleRoot.FindFile splitOnSeparators 5 zeroStack pathFile1X = .throws .FileNotFound
      ∧ exampleRoot.FindFile splitOnSeparators 5 zeroStack pathFile1X
          ≠ .throws .NotADirectory := by
  decide

/-- C4: on the empty path `FindFile` throws `FileNotFound`, `IsFile` and `IsDir`
return `false` without throwing, and `GetFileSize` throws `FileNotFound`, for every
directory object (and every way of splitting paths). -/
theorem empty_path (SplitWindowsPath : Bytes → List Bytes) (fuel : Nat) (stack : Nat → u8)
    (dir : IsoDirectory) :
    dir.FindFile SplitWindowsPath fuel stack [] = .throws .FileNotFound
      ∧ dir.IsFile SplitWindowsPath fuel stack [] = .ok false
      ∧ dir.IsDir SplitWindowsPath fuel stack [] = .ok false
      ∧ dir.GetFileSize SplitWindowsPath fuel stack [] = .throws .FileNotFound := by
  refine ⟨rfl, rfl, rfl, rfl⟩

/-- C5, amended: when block 16 is a primary volume descriptor and block 17 a
terminator, the root constructor finds the root, records the kind ISO9660, and its
outcome is that of the enumeration `Init` of the record decoded at byte offset 156
of block 16: it returns a directory with exactly the enumerated entries whenever
that enumeration returns, and fails as the enumeration fails otherwise. -/
theorem root_of_primary_then_terminator (fuel : Nat) (stack : Nat → u8) (r : SectorSource)
    (hprimary : hasCD001 (r 16) = true ∧ (r 16 0).val = 1)
    (hterm : hasCD001 (r 17) = true ∧ (r 17 0).val = 255)
    (hfuel : 3 ≤ fuel) :
    IsoDirectory.root fuel stack r
      = (Init fuel stack r (rootRecordOf (r 16))).bind fun files =>
          .ok { internalReader := r, files := files, m_fstype := .FStype_ISO9660 } := by
  obtain ⟨f, rfl⟩ : ∃ f, fuel = f + 2 + 1 := ⟨fuel - 3, by omega⟩
  have hb : scanBody r ScanState.start
      = { ScanState.start with rootDirEntry := rootRecordOf (r 16), isValid := true, i := 17 } := by
    simp [scanBody, descriptorSwitch, ScanState.start, hprimary.2, rootRecordOf]
  have hscan : scanLoop r (f + 2 + 1) ScanState.start
      = .ok { ScanState.start with
                rootDirEntry := rootRecordOf (r 16), isValid := true, done := true, i := 18 } := by
    rw [scanLoop_step r _ _ rfl hprimary.1, hb, scanLoop_terminator r f _ rfl hterm.1 hterm.2]
    rfl
  simp only [IsoDirectory.root, hscan, Outcome.bind]
  rfl

theorem root_of_primary_then_terminator_witness :
    IsoDirectory.root 5 zeroStack exampleImage
        = ((Init 5 zeroStack exampleImage (rootRecordOf (exampleImage 16))).bind fun files =>
            .ok { internalReader := exampleImage, files := files, m_fstype := .FStype_ISO9660 })
      ∧ (IsoDirectory.root 5 zeroStack exampleImage).bind (fun d => .ok d.view)
        = .ok (exampleRootRecords.map decodeRecord, .FStype_ISO9660) :=
  ⟨root_of_primary_then_terminator 5 zeroStack exampleImage (by decide) (by decide)
    (by decide), by decide⟩

/-- C5, as stated, fails: both example images have a primary volume descriptor at
block 16 and a terminator at block 17, and root construction does not succeed on
them.  On the first the root extent is declared 4 bytes long and its first record
claims 8: the read of the record runs past the end of the extent and fails.  On
the second the first record declares a file name of 255 bytes: `Load` reads behind
the end of the 257-byte buffer. -/
theorem root_of_primary_then_terminator_may_fail :
    ((hasCD001 (truncatedRootImage 16) = true ∧ (truncatedRootImage 16 0).val = 1)
        ∧ (hasCD001 (truncatedRootImage 17) = true ∧ (truncatedRootImage 17 0).val = 255)
        ∧ (IsoDirectory.root 5 zeroStack truncatedRootImage).bind (fun d => .ok d.view)
            = .throws .IOError)
      ∧ ((hasCD001 (oversizedNameImage 16) = true ∧ (oversizedNameImage 16 0).val = 1)
        ∧ (hasCD001 (oversizedNameImage 17) = true ∧ (oversizedNameImage 17 0).val = 255)
        ∧ (IsoDirectory.root 5 zeroStack oversizedNameImage).bind (fun d => .ok d.view)
            = .undefined) := by
  decide

/-- C6, amended: when the blocks from 16 up to a terminator all carry the identifier
"CD001" and none of them is of type 1, the root constructor throws, and what it
throws is `FileNotFound`; no directory object results. -/
theorem root_without_primary_throws (fuel n : Nat) (stack : Nat → u8) (r : SectorSource)
    (hn : 16 + n + 1 < 2 ^ 32)
    (hseq : ∀ k < n, hasCD001 (r (16 + k)) = true ∧ (r (16 + k) 0).val ≠ 1
      ∧ (r (16 + k) 0).val ≠ 255)
    (hterm : hasCD001 (r (16 + n)) = true ∧ (r (16 + n) 0).val = 255)
    (hfuel : n + 2 ≤ fuel) :
    IsoDirectory.root fuel stack r = .throws .FileNotFound := by
  obtain ⟨f, rfl⟩ : ∃ f, fuel = n + (f + 2) := ⟨fuel - n - 2, by omega⟩
  have hi : ScanState.start.i = 16 := rfl
  have hpi := scanPasses_i r n ScanState.start (by rw [hi]; omega)
  have hpd := scanPasses_done r n ScanState.start (by rw [hi]; omega)
    (fun k hk => by rw [hi]; exact (hseq k hk).2.2)
  have hpv := scanPasses_not_primary r n ScanState.start (by rw [hi]; omega)
    (fun k hk => by rw [hi]; exact (hseq k hk).2.1)
  rw [hi] at hpi
  have hscan := scanLoop_passes r n (f + 2) ScanState.start rfl (by rw [hi]; omega)
    (fun k hk => by rw [hi]; exact ⟨(hseq k hk).1, (hseq k hk).2.2⟩)
  rw [scanLoop_terminator r f _ (by rw [hpd]; rfl) (by rw [hpi]; exact hterm.1)
    (by rw [hpi]; exact hterm.2)] at hscan
  simp only [IsoDirectory.root, hscan, Outcome.bind, hpv.1]
  rfl

theorem root_without_primary_throws_witness :
    IsoDirectory.root 2 zeroStack terminatorOnlyImage = .throws .FileNotFound :=
  root_without_primary_throws 2 0 zeroStack terminatorOnlyImage (by decide) (by decide)
    (by decide) (by decide)

/-- C6, as stated, fails: on an image whose block 16 is a terminator carrying the
identifier, the root constructor throws `FileNotFound`, not `FileSystemNotFound`. -/
theorem root_without_primary_not_FileSystemNotFound :
    (hasCD001 (terminatorOnlyImage 16) = true ∧ (terminatorOnlyImage 16 0).val = 255)
      ∧ IsoDirectory.root 2 zeroStack terminatorOnlyImage = .throws .FileNotFound
      ∧ IsoDirectory.root 2 zeroStack terminatorOnlyImage
          ≠ .throws .FileSystemNotFound := by
  have h : IsoDirectory.root 2 zeroStack terminatorOnlyImage = .throws .FileNotFound := rfl
  refine ⟨by decide, h, ?_⟩
  rw [h]
  intro hc
  cases hc

/-- C7, amended: when the scan from block 16 reaches a sector whose bytes 1 to 5 are
not "CD001", before any terminator and with no primary volume descriptor among the
blocks read before it, the root constructor throws `FileNotFound`; no directory
object results. -/
theorem root_bad_identifier_without_primary_throws (fuel n : Nat) (stack : Nat → u8)
    (r : SectorSource)
    (hn : 16 + n < 2 ^ 32)
    (hseq : ∀ k < n, hasCD001 (r (16 + k)) = true ∧ (r (16 + k) 0).val ≠ 1
      ∧ (r (16 + k) 0).val ≠ 255)
    (hbad : hasCD001 (r (16 + n)) = false)
    (hfuel : n + 1 ≤ fuel) :
    IsoDirectory.root fuel stack r = .throws .FileNotFound := by
  obtain ⟨f, rfl⟩ : ∃ f, fuel = n + (f + 1) := ⟨fuel - n - 1, by omega⟩
  have hi : ScanState.start.i = 16 := rfl
  have hpi := scanPasses_i r n ScanState.start (by rw [hi]; omega)
  have hpd := scanPasses_done r n ScanState.start (by rw [hi]; omega)
    (fun k hk => by rw [hi]; exact (hseq k hk).2.2)
  have hpv := scanPasses_not_primary r n ScanState.start (by rw [hi]; omega)
    (fun k hk => by rw [hi]; exact (hseq k hk).2.1)
  rw [hi] at hpi
  have hscan := scanLoop_passes r n (f + 1) ScanState.start rfl (by rw [hi]; omega)
    (fun k hk => by rw [hi]; exact ⟨(hseq k hk).1, (hseq k hk).2.2⟩)
  rw [scanLoop_break r f _ (by rw [hpd]; rfl) (by rw [hpi]; exact hbad)] at hscan
  simp only [IsoDirectory.root, hscan, Outcome.bind, hpv.1]
  rfl

theorem root_bad_identifier_without_primary_throws_witness :
    IsoDirectory.root 2 zeroStack bootThenGarbageImage = .throws .FileNotFound :=
  root_bad_identifier_without_primary_throws 2 1 zeroStack bootThenGarbageImage (by decide)
    (by decide) (by decide) (by decide)

/-- C7, as stated, fails: with a primary volume descriptor at block 16 and a sector
without the identifier at block 17, the root constructor does not throw; it returns
the root directory built from the descriptor read at block 16. -/
theorem root_bad_identifier_after_primary_returns :
    (hasCD001 (primaryThenGarbageImage 16) = true ∧ (primaryThenGarbageImage 16 0).val = 1
        ∧ hasCD001 (primaryThenGarbageImage 17) = false)
      ∧ (IsoDirectory.root 5 zeroStack primaryThenGarbageImage).bind
            (fun d => .ok d.view)
          = .ok (exampleRootRecords.map decodeRecord, .FStype_ISO9660) := by
  decide

/-- C8: let the blocks 16 to 16 + n of `r` be a descriptor sequence ending in a
terminator, and let `r'` be `r` with a supplementary descriptor (type 2) added at
block 16 + j, before the terminator, the directory data being the same on both.
Then the root constructor on `r'` yields exactly the entries it yields on `r`, comes
to the same failure where it fails on `r`, and the only change is the recorded
kind, which is Joliet. -/
theorem supplementary_descriptor_changes_kind_only (fuel n j : Nat) (stack : Nat → u8)
    (r r' : SectorSource)
    (hn : 16 + n + 2 < 2 ^ 32)
    (hseq : ∀ k < n, hasCD001 (r (16 + k)) = true ∧ (r (16 + k) 0).val ≠ 255)
    (hterm : hasCD001 (r (16 + n)) = true ∧ (r (16 + n) 0).val = 255)
    (hj : j ≤ n)
    (hbefore : ∀ k < j, r' (16 + k) = r (16 + k))
    (hsupp : hasCD001 (r' (16 + j)) = true ∧ (r' (16 + j) 0).val = 2)
    (hafter : ∀ k, j ≤ k → k ≤ n → r' (16 + k + 1) = r (16 + k))
    (hdata : ∀ k < n, (r (16 + k) 0).val = 1 → ∀ x,
      IsoFile.stream r' (rootRecordOf (r (16 + k))) x
        = IsoFile.stream r (rootRecordOf (r (16 + k))) x)
    (hfuel : n + 3 ≤ fuel) :
    (IsoDirectory.root fuel stack r').bind (fun d => .ok d.view)
      = (IsoDirectory.root fuel stack r).bind
          (fun d => .ok (d.files, FStype.FStype_Joliet)) := by
  have hi : ScanState.start.i = 16 := rfl
  -- the scan of `r`
  have hpi := scanPasses_i r n ScanState.start (by rw [hi]; omega)
  have hpd := scanPasses_done r n ScanState.start (by rw [hi]; omega)
    (fun k hk => by rw [hi]; exact (hseq k hk).2)
  rw [hi] at hpi
  have hscan : scanLoop r fuel ScanState.start
      = .ok { scanPasses r n ScanState.start with done := true, i := (16 + n + 1) % 2 ^ 32 } := by
    obtain ⟨f, rfl⟩ : ∃ f, fuel = n + (f + 2) := ⟨fuel - n - 2, by omega⟩
    rw [scanLoop_passes r n (f + 2) ScanState.start rfl (by rw [hi]; omega)
      (fun k hk => by rw [hi]; exact hseq k hk),
      scanLoop_terminator r f _ (by rw [hpd]; rfl) (by rw [hpi]; exact hterm.1)
        (by rw [hpi]; exact hterm.2), hpi]
  -- the first `j` passes on `r'` are those on `r`
  have hA : scanPasses r' j ScanState.start = scanPasses r j ScanState.start :=
    scanPasses_congr r r' j ScanState.start (by rw [hi]; omega)
      (fun k hk => by rw [hi]; exact hbefore k hk)
  have hAi := scanPasses_i r j ScanState.start (by rw [hi]; omega)
  rw [hi] at hAi
  have hAd := scanPasses_done r j ScanState.start (by rw [hi]; omega)
    (fun k hk => by rw [hi]; exact (hseq k (by omega)).2)
  -- the pass on the supplementary descriptor
  have hB : scanBody r' (scanPasses r j ScanState.start)
      = { scanPasses r j ScanState.start with
            m_fstype := .FStype_Joliet, i := (16 + j + 1) % 2 ^ 32 } := by
    rw [scanBody_supplementary r' _ (by rw [hAi]; exact hsupp.2), hAi]
  have hBi : (16 + j + 1) % 2 ^ 32 = 16 + j + 1 := Nat.mod_eq_of_lt (by omega)
  -- the remaining passes
  have hshift := scanPasses_shift r r' (n - j) (scanPasses r j ScanState.start)
    { scanPasses r j ScanState.start with
        m_fstype := .FStype_Joliet, i := (16 + j + 1) % 2 ^ 32 }
    rfl rfl rfl rfl (by rw [hAi]; omega) (by simp only [hBi]; omega)
    (fun k hk => by
      simp only [hBi, hAi]
      rw [show 16 + j + 1 + k = 16 + (j + k) + 1 by omega,
        show 16 + j + k = 16 + (j + k) by omega]
      exact hafter (j + k) (by omega) (by omega))
  rw [← scanPasses_add, show j + (n - j) = n by omega] at hshift
  have hC : scanPasses r' (n + 1) ScanState.start
      = scanPasses r' (n - j) { scanPasses r j ScanState.start with
          m_fstype := .FStype_Joliet, i := (16 + j + 1) % 2 ^ 32 } := by
    rw [show n + 1 = j + (1 + (n - j)) by omega, scanPasses_add, scanPasses_add, hA]
    rw [show scanPasses r' 1 (scanPasses r j ScanState.start)
      = scanBody r' (scanPasses r j ScanState.start) from rfl, hB]
  -- the scan of `r'`
  have hseq' : ∀ k < n + 1, hasCD001 (r' (16 + k)) = true ∧ (r' (16 + k) 0).val ≠ 255 := by
    intro k hk
    rcases Nat.lt_trichotomy k j with h | h | h
    · rw [hbefore k h]; exact hseq k (by omega)
    · subst h; exact ⟨hsupp.1, by rw [hsupp.2]; omega⟩
    · obtain ⟨m, rfl⟩ : ∃ m, k = m + 1 := ⟨k - 1, by omega⟩
      rw [← Nat.add_assoc, hafter m (by omega) (by omega)]
      exact hseq m (by omega)
  have hterm' : hasCD001 (r' (16 + (n + 1))) = true ∧ (r' (16 + (n + 1)) 0).val = 255 := by
    rw [← Nat.add_assoc, hafter n hj (Nat.le_refl _)]; exact hterm
  have hpi' := scanPasses_i r' (n + 1) ScanState.start (by rw [hi]; omega)
  have hpd' := scanPasses_done r' (n + 1) ScanState.start (by rw [hi]; omega)
    (fun k hk => by rw [hi]; exact (hseq' k hk).2)
  rw [hi] at hpi'
  have hscan' : scanLoop r' fuel ScanState.start
      = .ok { scanPasses r' (n + 1) ScanState.start with
                done := true, i := (16 + (n + 1) + 1) % 2 ^ 32 } := by
    obtain ⟨f, rfl⟩ : ∃ f, fuel = (n + 1) + (f + 2) := ⟨fuel - n - 3, by omega⟩
    rw [scanLoop_passes r' (n + 1) (f + 2) ScanState.start rfl (by rw [hi]; omega)
      (fun k hk => by rw [hi]; exact hseq' k hk),
      scanLoop_terminator r' f _ (by rw [hpd']; rfl) (by rw [hpi']; exact hterm'.1)
        (by rw [hpi']; exact hterm'.2), hpi']
  rw [← hC] at hshift
  obtain ⟨s1, s2, _, s4⟩ := hshift
  -- the directory data
  have hinit : (scanPasses r n ScanState.start).isValid = true →
      Init fuel stack r' (scanPasses r n ScanState.start).rootDirEntry
        = Init fuel stack r (scanPasses r n ScanState.start).rootDirEntry :=
    scanPasses_root_inv r (fun e => Init fuel stack r' e = Init fuel stack r e) n
      ScanState.start (by rw [hi]; omega) (fun h => by cases h)
      (fun k hk h1 => Init_congr fuel stack r r' _ (by rw [hi] at h1 ⊢; exact hdata k hk h1))
  simp only [IsoDirectory.root, hscan, hscan', Outcome.bind, s1, s2, s4]
  cases hv : (scanPasses r n ScanState.start).isValid
  · rfl
  · rw [hinit hv]
    cases Init fuel stack r (scanPasses r n ScanState.start).rootDirEntry <;> rfl

theorem supplementary_descriptor_changes_kind_only_witness :
    (IsoDirectory.root 5 zeroStack jolietImage).bind (fun d => .ok d.view)
      = (IsoDirectory.root 5 zeroStack exampleImage).bind
          (fun d => .ok (d.files, FStype.FStype_Joliet)) :=
  supplementary_descriptor_changes_kind_only 5 1 1 zeroStack exampleImage jolietImage
    (by decide) (by decide) (by decide) (by decide)
    (fun k hk => by
      obtain rfl : k = 0 := by omega
      rfl)
    (by decide)
    (fun k h1 h2 => by
      obtain rfl : k = 1 := by omega
      rfl)
    (fun k hk _ x => by
      obtain rfl : k = 0 := by omega
      have h17 : ¬ (20 + x / 2048 = 17) := by omega
      have h18 : ¬ (20 + x / 2048 = 18) := by omega
      have hl : (rootRecordOf (exampleImage (16 + 0))).lba = 20 := by decide
      simp only [IsoFile.stream, hl, jolietImage, if_neg h17, if_neg h18])
    (by decide)

/-- C9: well-formed directory records stored back to back in an extent of declared
size `S`, of total length `T ≤ S` and followed by a zero byte when `S - T ≥ 4`, are
enumerated by `Init` as exactly the list of their decodings: one entry per record,
in on-disc order, nothing dropped or merged. -/
theorem Init_yields_records_in_order (fuel : Nat) (stack : Nat → u8) (r : SectorSource)
    (directoryEntry : IsoFileDescriptor) (recs : List (List u8))
    (hwf : ∀ rec ∈ recs, WellFormedRecord rec)
    (hS : directoryEntry.size < 2 ^ 32)
    (hT : recs.flatten.length ≤ directoryEntry.size)
    (hstream : ∀ k < recs.flatten.length,
      IsoFile.stream r directoryEntry k = some (recs.flatten.getD k 0))
    (hzero : 4 ≤ directoryEntry.size - recs.flatten.length →
      IsoFile.stream r directoryEntry recs.flatten.length = some 0)
    (hfuel : recs.length < fuel) :
    Init fuel stack r directoryEntry = .ok (recs.map decodeRecord) := by
  have hsz : directoryEntry.size % 2 ^ 32 = directoryEntry.size := Nat.mod_eq_of_lt hS
  have := InitLoop_records (IsoFile.stream r directoryEntry) recs fuel
    (InitState.start stack directoryEntry) hwf
    (by simp only [InitState.start, hsz]; exact hS)
    (by simp only [InitState.start, hsz]; exact hT)
    (by intro k hk; simp only [InitState.start, Nat.zero_add]; exact hstream k hk)
    (by simp only [InitState.start, hsz, Nat.zero_add]; exact hzero)
    hfuel
  simpa only [Init, InitState.start, List.nil_append] using this

/-- C10: when `Init`, after `n` complete passes of its loop, reads a length byte that
is 0 while `remainingSize` is at least 4, it returns exactly the `n` entries decoded
before that byte; the same entries result on every sector source that delivers the
same bytes up to and including that zero byte, whatever follows it. -/
theorem Init_stops_at_zero_length (fuel n : Nat) (stack : Nat → u8) (r r' : SectorSource)
    (directoryEntry : IsoFileDescriptor) (st : InitState)
    (hpasses : InitPasses (IsoFile.stream r directoryEntry) n
      (InitState.start stack directoryEntry) = some st)
    (hrem : 4 ≤ st.remainingSize)
    (hzero : IsoFile.stream r directoryEntry st.pos = some 0)
    (hagree : ∀ k ≤ st.pos, IsoFile.stream r' directoryEntry k = IsoFile.stream r directoryEntry k)
    (hfuel : n < fuel) :
    Init fuel stack r directoryEntry = .ok st.files
      ∧ Init fuel stack r' directoryEntry = .ok st.files
      ∧ st.files.length = n := by
  obtain ⟨f, rfl⟩ : ∃ f, fuel = n + (f + 1) := ⟨fuel - n - 1, by omega⟩
  have hp' := InitPasses_congr _ (IsoFile.stream r' directoryEntry) n _ _ hpasses
    (fun k hk => hagree k (by omega))
  refine ⟨?_, ?_, ?_⟩
  · unfold Init
    rw [InitLoop_passes _ n (f + 1) _ _ hpasses]
    exact InitLoop_zero_byte _ f st hrem hzero
  · unfold Init
    rw [InitLoop_passes _ n (f + 1) _ _ hp']
    exact InitLoop_zero_byte _ f st hrem (by rw [hagree _ (Nat.le_refl _)]; exact hzero)
  · have := InitPasses_files _ n _ _ hpasses
    simpa only [InitState.start, List.length_nil, Nat.zero_add] using this

theorem Init_yields_records_in_order_witness :
    Init 5 zeroStack exampleImage exampleRootEntry
      = .ok (exampleRootRecords.map decodeRecord) :=
  Init_yields_records_in_order 5 zeroStack exampleImage exampleRootEntry exampleRootRecords
    (by decide) (by decide) (by decide) (by decide) (by decide) (by decide)

theorem Init_stops_at_zero_length_witness :
    Init 2 zeroStack paddedImage exampleRootEntry = .ok [decodeRecord (mkRecord 20 1024 0 nameFILE1)]
      ∧ Init 2 zeroStack paddedImageCut exampleRootEntry
          = .ok [decodeRecord (mkRecord 20 1024 0 nameFILE1)]
      ∧ [decodeRecord (mkRecord 20 1024 0 nameFILE1)].length = 1 :=
  Init_stops_at_zero_length 2 1 zeroStack paddedImage paddedImageCut exampleRootEntry
    (InitBody (streamByte (IsoFile.stream paddedImage exampleRootEntry))
      (InitState.start zeroStack exampleRootEntry))
    rfl (by decide) (by decide) (by decide) (by decide)

/-- C11: the name `Load` decodes follows the filename-length byte `n` at offset 32:
for `n = 1` it is `.` when byte 33 is 0, `..` when byte 33 is 1 and the single
byte 33 otherwise; for `n ≠ 1` it is the `n` bytes at offsets 33 to 33 + n - 1,
unchanged, in order, and of length `n`. -/
theorem Load_name (data : Nat → u8) (length : Nat) :
    ((data 32).val = 1 → (data 33).val = 0 →
        (IsoFileDescriptor.Load data length).name = [46])
      ∧ ((data 32).val = 1 → (data 33).val = 1 →
        (IsoFileDescriptor.Load data length).name = [46, 46])
      ∧ ((data 32).val = 1 → (data 33).val ≠ 0 → (data 33).val ≠ 1 →
        (IsoFileDescriptor.Load data length).name = [data 33])
      ∧ ((data 32).val ≠ 1 →
        (IsoFileDescriptor.Load data length).name.length = (data 32).val
          ∧ ∀ j < (data 32).val,
              (IsoFileDescriptor.Load data length).name[j]? = some (data (33 + j))) := by
  refine ⟨?_, ?_, ?_, ?_⟩
  · intro h1 h0
    simp [IsoFileDescriptor.Load, h1, h0]
  · intro h1 h0
    simp [IsoFileDescriptor.Load, h1, h0]
  · intro h1 h0 h0'
    simp [IsoFileDescriptor.Load, h1, h0, h0']
  · intro hn
    simp only [IsoFileDescriptor.Load, hn, if_false, assignName]
    refine ⟨by simp, ?_⟩
    intro j hj
    simp [List.getElem?_map, List.getElem?_range hj]

/-- C12: `Load` decodes the fixed layout: `lba` and `size` are the little-endian
values of bytes 2 to 5 and 10 to 13, both below 2 ^ 32; `year` is byte 18 plus 1900,
between 1900 and 2155; month, day, hour, minute, second and GMT offset are bytes 19
to 24; `flags` is byte 25; and the `length` argument has no influence. -/
theorem Load_layout (data : Nat → u8) (length : Nat) :
    (IsoFileDescriptor.Load data length).lba
        = (data 2).val + 256 * (data 3).val + 65536 * (data 4).val + 16777216 * (data 5).val
      ∧ (IsoFileDescriptor.Load data length).size
        = (data 10).val + 256 * (data 11).val + 65536 * (data 12).val
            + 16777216 * (data 13).val
      ∧ (IsoFileDescriptor.Load data length).lba < 2 ^ 32
      ∧ (IsoFileDescriptor.Load data length).size < 2 ^ 32
      ∧ (IsoFileDescriptor.Load data length).date.year = (data 18).val + 1900
      ∧ 1900 ≤ (IsoFileDescriptor.Load data length).date.year
      ∧ (IsoFileDescriptor.Load data length).date.year ≤ 2155
      ∧ (IsoFileDescriptor.Load data length).date.month = (data 19).val
      ∧ (IsoFileDescriptor.Load data length).date.day = (data 20).val
      ∧ (IsoFileDescriptor.Load data length).date.hour = (data 21).val
      ∧ (IsoFileDescriptor.Load data length).date.minute = (data 22).val
      ∧ (IsoFileDescriptor.Load data length).date.second = (data 23).val
      ∧ (IsoFileDescriptor.Load data length).date.gmtOffset = (data 24).val
      ∧ (IsoFileDescriptor.Load data length).flags = (data 25).val
      ∧ ∀ length', IsoFileDescriptor.Load data length' = IsoFileDescriptor.Load data length := by
  have h2 := (data 2).isLt
  have h3 := (data 3).isLt
  have h4 := (data 4).isLt
  have h5 := (data 5).isLt
  have h10 := (data 10).isLt
  have h11 := (data 11).isLt
  have h12 := (data 12).isLt
  have h13 := (data 13).isLt
  have h18 := (data 18).isLt
  refine ⟨rfl, rfl, ?_, ?_, rfl, ?_, ?_, rfl, rfl, rfl, rfl, rfl, rfl, rfl, fun _ => rfl⟩
  · simp only [IsoFileDescriptor.Load, readU32]; omega
  · simp only [IsoFileDescriptor.Load, readU32]; omega
  · simp only [IsoFileDescriptor.Load]; omega
  · simp only [IsoFileDescriptor.Load]; omega

/-- C13, amended: the name `Load` decodes is non-empty exactly when the
filename-length byte at offset 32 is not 0; for a filename-length byte of 0 the
name is the empty string. -/
theorem Load_name_nonempty_iff (data : Nat → u8) (length : Nat) :
    (IsoFileDescriptor.Load data length).name ≠ [] ↔ (data 32).val ≠ 0 := by
  by_cases h1 : (data 32).val = 1
  · have hne : (data 32).val ≠ 0 := by omega
    simp only [IsoFileDescriptor.Load, h1, if_true]
    constructor
    · intro _; omega
    · intro _
      split_ifs <;> simp
  · simp only [IsoFileDescriptor.Load, h1, if_false, assignName]
    rw [Ne, List.map_eq_nil_iff, List.range_eq_nil]

/-- C13, as stated, fails: a 33-byte record whose filename-length byte is 0 decodes
to an entry with the empty name. -/
theorem Load_empty_name :
    (mkRecord 22 0 0 []).getD 32 0 = 0
      ∧ (decodeRecord (mkRecord 22 0 0 [])).name = []
      ∧ ¬ ((decodeRecord (mkRecord 22 0 0 [])).name ≠ []) := by
  decide

theorem GetIndexOfLoop_spec (files : List IsoFileDescriptor) (fileName : Bytes) :
    ∀ (n i : Nat), i + n = files.length →
      (GetIndexOfLoop files fileName n i = .throws .FileNotFound
          ∧ ∀ j, i ≤ j → ∀ g, files[j]? = some g → g.name ≠ fileName)
        ∨ (∃ m f, GetIndexOfLoop files fileName n i = .ok m ∧ i ≤ m
            ∧ files[m]? = some f ∧ f.name = fileName
            ∧ ∀ j, i ≤ j → j < m → ∀ g, files[j]? = some g → g.name ≠ fileName) := by
  intro n
  induction n with
  | zero =>
    intro i hi
    left
    refine ⟨rfl, ?_⟩
    intro j hj g hg
    rw [List.getElem?_eq_none (by omega)] at hg
    cases hg
  | succ n ih =>
    intro i hi
    have hlt : i < files.length := by omega
    have hget : files[i]? = some files[i] := List.getElem?_eq_getElem hlt
    rw [GetIndexOfLoop, hget]
    by_cases hname : files[i].name = fileName
    · right
      refine ⟨i, files[i], by simp [hname], Nat.le_refl _, hget, hname, ?_⟩
      intro j h1 h2
      omega
    · simp only [hname, if_false]
      rcases ih (i + 1) (by omega) with ⟨ht, hall⟩ | ⟨m, f, hm, him, hf, hfn, hmin⟩
      · left
        refine ⟨ht, ?_⟩
        intro j hj g hg
        rcases Nat.eq_or_lt_of_le hj with rfl | hlt'
        · rw [hget] at hg
          cases hg
          exact hname
        · exact hall j hlt' g hg
      · right
        refine ⟨m, f, hm, by omega, hf, hfn, ?_⟩
        intro j h1 h2 g hg
        rcases Nat.eq_or_lt_of_le h1 with rfl | hlt'
        · rw [hget] at hg
          cases hg
          exact hname
        · exact hmin j hlt' h2 g hg

/-- C14: `GetIndexOf(name)` returns `i` exactly when entry `i` exists, its name
equals `name` byte for byte and no entry before it has that name; `GetEntry(name)`
then returns entry `i`; both throw `FileNotFound` exactly when no entry has that
name, and `GetIndexOf` has no other outcome. -/
theorem GetIndexOf_first_match (dir : IsoDirectory) (fileName : Bytes) :
    (∀ i, dir.GetIndexOf fileName = .ok i ↔
        (∃ f, dir.files[i]? = some f ∧ f.name = fileName)
          ∧ ∀ j < i, ∀ g, dir.files[j]? = some g → g.name ≠ fileName)
      ∧ (∀ i, dir.GetIndexOf fileName = .ok i →
          ∃ f, dir.files[i]? = some f ∧ dir.GetEntryByName fileName = .ok f)
      ∧ (dir.GetIndexOf fileName = .throws .FileNotFound ↔
          ∀ f ∈ dir.files, f.name ≠ fileName)
      ∧ (dir.GetEntryByName fileName = .throws .FileNotFound ↔
          ∀ f ∈ dir.files, f.name ≠ fileName)
      ∧ ((∃ i, dir.GetIndexOf fileName = .ok i)
          ∨ dir.GetIndexOf fileName = .throws .FileNotFound) := by
  have hspec := GetIndexOfLoop_spec dir.files fileName dir.files.length 0 (by omega)
  have hmem : (∀ j, 0 ≤ j → ∀ g, dir.files[j]? = some g → g.name ≠ fileName)
      ↔ ∀ f ∈ dir.files, f.name ≠ fileName := by
    constructor
    · intro h f hf
      obtain ⟨j, hj⟩ := List.mem_iff_getElem?.1 hf
      exact h j (Nat.zero_le _) f hj
    · intro h j _ g hg
      exact h g (List.mem_iff_getElem?.2 ⟨j, hg⟩)
  rcases hspec with ⟨ht, hall⟩ | ⟨m, f, hm, _, hf, hfn, hmin⟩
  · have ht' : dir.GetIndexOf fileName = .throws .FileNotFound := ht
    have hge : dir.GetEntryByName fileName = .throws .FileNotFound := by
      rw [IsoDirectory.GetEntryByName, ht']; rfl
    refine ⟨?_, ?_, ?_, ?_, Or.inr ht'⟩
    · intro i
      rw [ht']
      constructor
      · intro h; cases h
      · rintro ⟨⟨g, hg, hgn⟩, _⟩
        exact absurd hgn (hall i (Nat.zero_le _) g hg)
    · intro i h
      rw [ht'] at h; cases h
    · rw [ht']
      exact ⟨fun _ => hmem.1 hall, fun _ => rfl⟩
    · rw [hge]
      exact ⟨fun _ => hmem.1 hall, fun _ => rfl⟩
  · have hm' : dir.GetIndexOf fileName = .ok m := hm
    have hge : dir.GetEntryByName fileName = .ok f := by
      rw [IsoDirectory.GetEntryByName, hm']
      simp only [Outcome.bind, IsoDirectory.GetEntry, hf]
    have hin : f ∈ dir.files := List.mem_iff_getElem?.2 ⟨m, hf⟩
    refine ⟨?_, ?_, ?_, ?_, Or.inl ⟨m, hm'⟩⟩
    · intro i
      rw [hm']
      constructor
      · intro h
        cases h
        exact ⟨⟨f, hf, hfn⟩, fun j hj g hg => hmin j (Nat.zero_le _) hj g hg⟩
      · rintro ⟨⟨g, hg, hgn⟩, hfirst⟩
        rcases Nat.lt_trichotomy m i with h | h | h
        · exact absurd hfn (hfirst m h f hf)
        · rw [h]
        · exact absurd hgn (hmin i (Nat.zero_le _) h g hg)
    · intro i h
      rw [hm'] at h
      cases h
      exact ⟨f, hf, hge⟩
    · rw [hm']
      constructor
      · intro h; cases h
      · intro h; exact absurd hfn (h f hin)
    · rw [hge]
      constructor
      · intro h; cases h
      · intro h; exact absurd hfn (h f hin)

theorem GetIndexOf_first_match_witness :
    exampleRoot.GetIndexOf nameNOPE = .throws .FileNotFound
      ∧ exampleRoot.GetIndexOf nameDIR1 = .ok 2 :=
  ⟨(GetIndexOf_first_match exampleRoot nameNOPE).2.2.1.2 (by decide),
    ((GetIndexOf_first_match exampleRoot nameDIR1).1 2).2 (by decide)⟩

theorem flag_bit_two (flags : Nat) : flags &&& 2 = 2 ↔ flags / 2 % 2 = 1 := by
  have h := Nat.and_two_pow flags 1
  simp only [pow_one] at h
  rw [h, Nat.testBit_to_div_mod]
  simp only [pow_one]
  by_cases c : flags / 2 % 2 = 1
  · simp [c]
  · simp [c]

/-- C15: for a non-empty path, when `FindFile` returns the entry `e`, `IsDir` returns
whether bit 0x2 of `e.flags` is set and `IsFile` returns the negation of that,
whatever the other bits are; when `FindFile` throws, `IsFile` and `IsDir` throw the
same error, and they share every other outcome of `FindFile` that is not an entry. -/
theorem IsFile_IsDir_follow_FindFile (SplitWindowsPath : Bytes → List Bytes) (fuel : Nat)
    (stack : Nat → u8) (dir : IsoDirectory) (filePath : Bytes) (hpath : filePath ≠ []) :
    (∀ e, dir.FindFile SplitWindowsPath fuel stack filePath = .ok e →
        dir.IsDir SplitWindowsPath fuel stack filePath = .ok (decide (e.flags &&& 2 = 2))
          ∧ dir.IsFile SplitWindowsPath fuel stack filePath
              = .ok (!decide (e.flags &&& 2 = 2)))
      ∧ (∀ err, dir.FindFile SplitWindowsPath fuel stack filePath = .throws err →
        dir.IsFile SplitWindowsPath fuel stack filePath = .throws err
          ∧ dir.IsDir SplitWindowsPath fuel stack filePath = .throws err)
      ∧ (dir.FindFile SplitWindowsPath fuel stack filePath = .undefined →
        dir.IsFile SplitWindowsPath fuel stack filePath = .undefined
          ∧ dir.IsDir SplitWindowsPath fuel stack filePath = .undefined)
      ∧ (dir.FindFile SplitWindowsPath fuel stack filePath = .outOfFuel →
        dir.IsFile SplitWindowsPath fuel stack filePath = .outOfFuel
          ∧ dir.IsDir SplitWindowsPath fuel stack filePath = .outOfFuel) := by
  have hne : filePath.isEmpty = false := by
    cases filePath with
    | nil => exact absurd rfl hpath
    | cons _ _ => rfl
  simp only [IsoDirectory.IsFile, IsoDirectory.IsDir, hne, Bool.false_eq_true, if_false]
  refine ⟨?_, ?_, ?_, ?_⟩
  · intro e he
    rw [he]
    simp only [Outcome.bind, Outcome.ok.injEq]
    by_cases c : e.flags / 2 % 2 = 1
    · have := (flag_bit_two e.flags).2 c
      simp [c, this]
    · have : ¬ (e.flags &&& 2 = 2) := fun h => c ((flag_bit_two e.flags).1 h)
      simp [c, this]
  · intro err he
    rw [he]
    exact ⟨rfl, rfl⟩
  · intro he
    rw [he]
    exact ⟨rfl, rfl⟩
  · intro he
    rw [he]
    exact ⟨rfl, rfl⟩

theorem IsFile_IsDir_follow_FindFile_witness :
    exampleRoot.IsDir splitOnSeparators 5 zeroStack nameDIR1 = .ok true
      ∧ exampleRoot.IsFile splitOnSeparators 5 zeroStack nameDIR1 = .ok false
      ∧ exampleRoot.IsFile splitOnSeparators 5 zeroStack nameNOPE = .throws .FileNotFound
      ∧ exampleRoot.IsDir splitOnSeparators 5 zeroStack nameNOPE = .throws .FileNotFound :=
  ⟨((IsFile_IsDir_follow_FindFile splitOnSeparators 5 zeroStack exampleRoot nameDIR1
      (by decide)).1 (decodeRecord (mkRecord 21 2048 2 nameDIR1)) (by decide)).1,
    ((IsFile_IsDir_follow_FindFile splitOnSeparators 5 zeroStack exampleRoot nameDIR1
      (by decide)).1 (decodeRecord (mkRecord 21 2048 2 nameDIR1)) (by decide)).2,
    (IsFile_IsDir_follow_FindFile splitOnSeparators 5 zeroStack exampleRoot nameNOPE
      (by decide)).2.1 .FileNotFound (by decide)⟩

/-- C20: for a path whose only segment ends in `:`, `FindFile` looks that segment
itself up in the entries of the directory: it returns an entry of the directory
whose name is the segment when there is one, the first such entry, and throws
`FileNotFound` when there is none. -/
theorem FindFile_single_device_token (SplitWindowsPath : Bytes → List Bytes) (fuel : Nat)
    (stack : Nat → u8) (dir : IsoDirectory) (filePath dev : Bytes)
    (hpath : filePath ≠ [])
    (hsplit : SplitWindowsPath filePath = [dev])
    (hdev : dev.getLast? = some 58) :
    dir.FindFile SplitWindowsPath fuel stack filePath = dir.GetEntryByName dev
      ∧ (∀ e, dir.FindFile SplitWindowsPath fuel stack filePath = .ok e ↔
          lookupName dir.files dev = some e)
      ∧ (∀ e, dir.FindFile SplitWindowsPath fuel stack filePath = .ok e →
          e ∈ dir.files ∧ e.name = dev)
      ∧ ((∃ f ∈ dir.files, f.name = dev) →
          ∃ e, dir.FindFile SplitWindowsPath fuel stack filePath = .ok e)
      ∧ ((∀ f ∈ dir.files, f.name ≠ dev) →
          dir.FindFile SplitWindowsPath fuel stack filePath = .throws .FileNotFound) := by
  have hne : filePath.isEmpty = false := by
    cases filePath with
    | nil => exact absurd rfl hpath
    | cons _ _ => rfl
  have hfind : dir.FindFile SplitWindowsPath fuel stack filePath = dir.GetEntryByName dev := by
    rw [IsoDirectory.FindFile, hne, hsplit]
    simp only [Bool.false_eq_true, if_false, FindFileParts, List.head?_cons, hdev, decide_True,
      if_true, List.length_singleton, Nat.sub_self, Nat.zero_sub, FindFileLoop, Outcome.bind,
      List.getLast?_singleton]
  rw [hfind, GetEntryByName_eq]
  refine ⟨rfl, ?_, ?_, ?_, ?_⟩
  · intro e
    cases lookupName dir.files dev <;> simp
  · intro e he
    cases hl : lookupName dir.files dev with
    | none => rw [hl] at he; cases he
    | some f =>
      rw [hl] at he
      cases he
      have hp := List.find?_some hl
      exact ⟨List.mem_of_find?_eq_some hl, by simpa using hp⟩
  · rintro ⟨f, hf, hfn⟩
    cases hl : lookupName dir.files dev with
    | none =>
      have := List.find?_eq_none.1 hl f hf
      simp [hfn] at this
    | some e => exact ⟨e, rfl⟩
  · intro hall
    cases hl : lookupName dir.files dev with
    | none => rfl
    | some e =>
      have hp := List.find?_some hl
      exact absurd (by simpa using hp) (hall e (List.mem_of_find?_eq_some hl))

theorem FindFile_single_device_token_witness :
    deviceNamedDir.FindFile splitOnSeparators 5 zeroStack pathCdrom0
        = .ok (decodeRecord (mkRecord 30 16 0 pathCdrom0))
      ∧ exampleRoot.FindFile splitOnSeparators 5 zeroStack pathCdrom0
        = .throws .FileNotFound :=
  ⟨((FindFile_single_device_token splitOnSeparators 5 zeroStack deviceNamedDir pathCdrom0
      pathCdrom0 (by decide) (by decide) (by decide)).2.1 _).2 (by decide),
    (FindFile_single_device_token splitOnSeparators 5 zeroStack exampleRoot pathCdrom0
      pathCdrom0 (by decide) (by decide) (by decide)).2.2.2.2 (by decide)⟩

theorem InitBody_entry (stream : Nat → u8) (st : InitState)
    (hlen : 34 ≤ (stream st.pos).val)
    (hname : (stream (st.pos + 32)).val + 33 ≤ (stream st.pos).val) :
    (InitBody stream st).files
      = st.files ++ [IsoFileDescriptor.Load (fun j => stream (st.pos + j)) (stream st.pos).val] := by
  have hb : ∀ k < (stream st.pos).val,
      readRecordBody stream st.pos (readLengthByte stream st) k = stream (st.pos + k) := by
    intro k hk
    simp only [readRecordBody, readLengthByte, if_true]
    by_cases hk0 : k = 0
    · subst hk0; simp
    · rw [if_pos (by omega)]
  simp only [InitBody]
  congr 2
  apply Load_congr _ _ _ _ (stream st.pos).val hlen
  · rw [hb 32 (by omega)]; exact hname
  · exact hb

theorem InitLoop_ok_cases (stream : Nat → Option u8) (fuel : Nat) (st sf : InitState)
    (h : InitLoop stream (fuel + 1) st = .ok sf) :
    (InitPassOk stream st ∧ InitLoop stream fuel (InitBody (streamByte stream) st) = .ok sf)
      ∨ (sf.files = st.files
          ∧ ((st.remainingSize < 4 ∧ sf.pos = st.pos)
            ∨ (4 ≤ st.remainingSize ∧ IsoFile.canRead stream st.pos 1
                ∧ (streamByte stream st.pos).val = 0 ∧ sf.pos = st.pos + 1))) := by
  rw [InitLoop] at h
  by_cases c1 : 4 ≤ st.remainingSize
  · rw [if_pos c1] at h
    by_cases c2 : IsoFile.canRead stream st.pos 1
    · rw [if_neg (not_not_intro c2)] at h
      by_cases c3 : (streamByte stream st.pos).val = 0
      · rw [if_pos c3] at h
        cases h
        exact Or.inr ⟨rfl, Or.inr ⟨c1, c2, c3, rfl⟩⟩
      · rw [if_neg c3] at h
        by_cases c4 : IsoFile.canRead stream (st.pos + 1) ((streamByte stream st.pos).val - 1)
        · rw [if_neg (not_not_intro c4)] at h
          by_cases c5 : LoadInBuffer (InitBody (streamByte stream) st).b
          · rw [if_neg (not_not_intro c5)] at h
            exact Or.inl ⟨⟨c1, c2, c3, c4, c5⟩, h⟩
          · rw [if_pos c5] at h
            cases h
        · rw [if_pos c4] at h
          cases h
    · rw [if_pos c2] at h
      cases h
  · rw [if_neg c1] at h
    cases h
    exact Or.inr ⟨rfl, Or.inl ⟨by omega, rfl⟩⟩

theorem InitLoop_files_prefix (stream : Nat → Option u8) :
    ∀ (fuel : Nat) (st sf : InitState), InitLoop stream fuel st = .ok sf →
      ∃ more, sf.files = st.files ++ more := by
  intro fuel
  induction fuel with
  | zero => intro st sf h; cases h
  | succ fuel ih =>
    intro st sf h
    rcases InitLoop_ok_cases stream fuel st sf h with ⟨_, hrec⟩ | ⟨hf, _⟩
    · obtain ⟨more, hm⟩ := ih _ _ hrec
      refine ⟨(InitBody (streamByte stream) st).files.drop st.files.length ++ more, ?_⟩
      rw [hm]
      simp only [InitBody, List.append_assoc, List.drop_left]
    · exact ⟨[], by simp [hf]⟩

theorem InitLoop_after_passes (stream : Nat → Option u8) :
    ∀ (n fuel : Nat) (st st' sf : InitState), InitPasses stream n st = some st' →
      InitLoop stream fuel st = .ok sf → ∃ f, fuel = n + f ∧ InitLoop stream f st' = .ok sf := by
  intro n
  induction n with
  | zero =>
    intro fuel st st' sf hp h
    simp only [InitPasses, Option.some.injEq] at hp
    subst hp
    exact ⟨fuel, by omega, h⟩
  | succ n ih =>
    intro fuel st st' sf hp h
    unfold InitPasses at hp
    split at hp
    · rename_i hc
      cases fuel with
      | zero => cases h
      | succ g =>
        rw [InitLoop_pass stream g st hc] at h
        obtain ⟨f, hf, hl⟩ := ih g _ _ _ hp h
        exact ⟨f, by omega, hl⟩
    · cases hp

theorem Init_ok_loop (fuel : Nat) (stack : Nat → u8) (r : SectorSource)
    (e : IsoFileDescriptor) (files : List IsoFileDescriptor)
    (h : Init fuel stack r e = .ok files) :
    ∃ sf, InitLoop (IsoFile.stream r e) fuel (InitState.start stack e) = .ok sf
      ∧ sf.files = files := by
  unfold Init at h
  cases hl : InitLoop (IsoFile.stream r e) fuel (InitState.start stack e) with
  | ok sf =>
    rw [hl] at h
    simp only [Outcome.bind, Outcome.ok.injEq] at h
    exact ⟨sf, rfl, h⟩
  | throws x => rw [hl] at h; cases h
  | undefined => rw [hl] at h; cases h
  | outOfFuel => rw [hl] at h; cases h

theorem Init_kth_entry (fuel k : Nat) (stack : Nat → u8) (r : SectorSource)
    (e : IsoFileDescriptor) (st : InitState) (files : List IsoFileDescriptor)
    (hp : InitPasses (IsoFile.stream r e) k (InitState.start stack e) = some st)
    (hinit : Init fuel stack r e = .ok files)
    (hrem : 4 ≤ st.remainingSize)
    (hlen : 34 ≤ (streamByte (IsoFile.stream r e) st.pos).val)
    (hname : (streamByte (IsoFile.stream r e) (st.pos + 32)).val + 33
      ≤ (streamByte (IsoFile.stream r e) st.pos).val) :
    files[k]? = some (IsoFileDescriptor.Load
      (fun j => streamByte (IsoFile.stream r e) (st.pos + j))
      (streamByte (IsoFile.stream r e) st.pos).val) := by
  obtain ⟨sf, hl, hfiles⟩ := Init_ok_loop fuel stack r e files hinit
  obtain ⟨f, _, hf⟩ := InitLoop_after_passes _ k fuel _ _ _ hp hl
  cases f with
  | zero => cases hf
  | succ g =>
    rcases InitLoop_ok_cases _ g st sf hf with ⟨_, hrec⟩ | ⟨_, ⟨h4, _⟩ | ⟨_, _, h0, _⟩⟩
    · obtain ⟨more, hm⟩ := InitLoop_files_prefix _ g _ _ hrec
      have hk := InitPasses_files _ k _ _ hp
      simp only [InitState.start, List.length_nil, Nat.zero_add] at hk
      rw [← hfiles, hm, InitBody_entry _ st hlen hname, List.append_assoc,
        List.getElem?_append_right (by omega), hk]
      simp
    · omega
    · omega

theorem stream_bound (r : SectorSource) (e : IsoFileDescriptor) (k : Nat)
    (h : (IsoFile.stream r e k).isSome = true) : k < e.size := by
  simp only [IsoFile.stream] at h
  by_cases hk : k < e.size
  · exact hk
  · rw [if_neg hk] at h
    cases h

theorem InitPassOk_bound (stream : Nat → Option u8) (S : Nat)
    (hb : ∀ k, (stream k).isSome = true → k < S) (st : InitState)
    (hok : InitPassOk stream st) : st.pos + (streamByte stream st.pos).val ≤ S := by
  obtain ⟨_, h1, h0, h2, _⟩ := hok
  have hp : st.pos < S := hb _ ((canRead_one _ _).1 h1)
  by_cases hone : (streamByte stream st.pos).val = 1
  · omega
  · have := hb _ (h2 ((streamByte stream st.pos).val - 2) (by omega))
    omega

theorem InitPasses_inv (stream : Nat → Option u8) (S : Nat)
    (hb : ∀ k, (stream k).isSome = true → k < S) (hS : S < 2 ^ 32) :
    ∀ (n : Nat) (st st' : InitState), st.pos ≤ S → st.remainingSize = S - st.pos →
      InitPasses stream n st = some st' → st'.pos ≤ S ∧ st'.remainingSize = S - st'.pos := by
  intro n
  induction n with
  | zero =>
    intro st st' h1 h2 h
    simp only [InitPasses, Option.some.injEq] at h
    subst h
    exact ⟨h1, h2⟩
  | succ n ih =>
    intro st st' h1 h2 h
    unfold InitPasses at h
    split at h
    · rename_i hc
      have hbound := InitPassOk_bound stream S hb st hc
      apply ih _ _ _ _ h
      · rw [InitBody_pos]; exact hbound
      · rw [InitBody_pos]
        simp only [InitBody, readLengthByte, if_true, h2]
        omega
    · cases h

theorem InitPasses_succ_end (stream : Nat → Option u8) :
    ∀ (n : Nat) (st0 st : InitState), InitPasses stream n st0 = some st →
      InitPasses stream (n + 1) st0
        = if InitPassOk stream st then some (InitBody (streamByte stream) st) else none := by
  intro n
  induction n with
  | zero =>
    intro st0 st h
    simp only [InitPasses, Option.some.injEq] at h
    subst h
    simp only [InitPasses]
  | succ n ih =>
    intro st0 st h
    unfold InitPasses at h
    split at h
    · rename_i hc
      rw [InitPasses, if_pos hc]
      exact ih _ _ h
    · cases h

theorem InitLoop_ok_bound (stream : Nat → Option u8) (S : Nat)
    (hb : ∀ k, (stream k).isSome = true → k < S) :
    ∀ (fuel : Nat) (st sf : InitState), InitLoop stream fuel st = .ok sf → st.pos ≤ S →
      sf.pos ≤ S := by
  intro fuel
  induction fuel with
  | zero => intro st sf h _; cases h
  | succ fuel ih =>
    intro st sf h hpos
    rcases InitLoop_ok_cases stream fuel st sf h with
      ⟨hok, hrec⟩ | ⟨_, ⟨_, hp⟩ | ⟨_, h1, _, hp⟩⟩
    · apply ih _ _ hrec
      rw [InitBody_pos]
      exact InitPassOk_bound stream S hb st hok
    · omega
    · have := hb _ ((canRead_one _ _).1 h1)
      omega

/-- C16: at every point of the enumeration of an extent of declared size `S`, after
`n` records, the bytes consumed are within `S`, hence within `S + 251`, and
`remainingSize` is `S` minus the bytes consumed.  Once the records consumed total
more than `S - 4`, no further record is read and `Init` returns the `n` entries.
When the next length byte exceeds the bytes remaining, no further record is read
either: the read fails, so `remainingSize` never wraps around on a record that was
read.  On return, too, the bytes consumed are within `S`. -/
theorem Init_reads_inside_declared_size (n : Nat) (stack : Nat → u8) (r : SectorSource)
    (e : IsoFileDescriptor) (st : InitState)
    (hS : e.size < 2 ^ 32)
    (hp : InitPasses (IsoFile.stream r e) n (InitState.start stack e) = some st) :
    st.pos ≤ e.size
      ∧ st.pos ≤ e.size + 251
      ∧ st.remainingSize = e.size - st.pos
      ∧ (e.size < st.pos + 4 →
          InitPasses (IsoFile.stream r e) (n + 1) (InitState.start stack e) = none
            ∧ ∀ fuel, n < fuel → Init fuel stack r e = .ok st.files)
      ∧ (e.size < st.pos + (streamByte (IsoFile.stream r e) st.pos).val →
          InitPasses (IsoFile.stream r e) (n + 1) (InitState.start stack e) = none
            ∧ (4 ≤ st.remainingSize → ∀ fuel files, Init fuel stack r e ≠ .ok files))
      ∧ (∀ fuel sf, InitLoop (IsoFile.stream r e) fuel (InitState.start stack e) = .ok sf →
          sf.pos ≤ e.size ∧ sf.pos ≤ e.size + 251) := by
  have hb := stream_bound r e
  have hstart : (InitState.start stack e).remainingSize = e.size - (InitState.start stack e).pos := by
    simp only [InitState.start, Nat.sub_zero]
    exact Nat.mod_eq_of_lt hS
  obtain ⟨hpos, hrem⟩ := InitPasses_inv _ e.size hb hS n _ _ (Nat.zero_le _) hstart hp
  have hnext := InitPasses_succ_end _ n _ _ hp
  refine ⟨hpos, by omega, hrem, ?_, ?_, ?_⟩
  · intro hlt
    have hno : ¬ InitPassOk (IsoFile.stream r e) st := fun hok => by
      have := hok.1
      omega
    refine ⟨by rw [hnext, if_neg hno], ?_⟩
    intro fuel hfuel
    obtain ⟨f, rfl⟩ : ∃ f, fuel = n + (f + 1) := ⟨fuel - n - 1, by omega⟩
    unfold Init
    rw [InitLoop_passes _ n (f + 1) _ _ hp, InitLoop, if_neg (by omega)]
    rfl
  · intro hlt
    have hno : ¬ InitPassOk (IsoFile.stream r e) st := fun hok => by
      have := InitPassOk_bound _ e.size hb st hok
      omega
    refine ⟨by rw [hnext, if_neg hno], ?_⟩
    intro h4 fuel files hinit
    obtain ⟨sf, hl, _⟩ := Init_ok_loop fuel stack r e files hinit
    obtain ⟨f, _, hf⟩ := InitLoop_after_passes _ n fuel _ _ _ hp hl
    cases f with
    | zero => cases hf
    | succ g =>
      rcases InitLoop_ok_cases _ g st sf hf with ⟨hok, _⟩ | ⟨_, ⟨_, _⟩ | ⟨_, _, h0, _⟩⟩
      · exact hno hok
      · omega
      · omega
  · intro fuel sf hl
    have := InitLoop_ok_bound _ e.size hb fuel _ sf hl (Nat.zero_le _)
    exact ⟨this, by omega⟩

theorem Init_reads_inside_declared_size_witness :
    Init 3 zeroStack overrunImage overrunEntry ≠ .ok []
      ∧ Init 3 zeroStack staleImageA staleEntry
        = .ok (InitBody (streamByte (IsoFile.stream staleImageA staleEntry))
            (InitBody (streamByte (IsoFile.stream staleImageA staleEntry))
              (InitState.start zeroStack staleEntry))).files :=
  ⟨((Init_reads_inside_declared_size 0 zeroStack overrunImage overrunEntry
      (InitState.start zeroStack overrunEntry) (by decide) rfl).2.2.2.2.1 (by decide)).2
      (by decide) 3 [],
    ((Init_reads_inside_declared_size 2 zeroStack staleImageA staleEntry
      (InitBody (streamByte (IsoFile.stream staleImageA staleEntry))
        (InitBody (streamByte (IsoFile.stream staleImageA staleEntry))
          (InitState.start zeroStack staleEntry)))
      (by decide) rfl).2.2.2.1 (by decide)).2 3 (by decide)⟩

/-- C17, amended: let two enumerations both reach their record number `k` (counted
from 0), after `k` passes of the loop of `Init`, and let these records be
byte-identical, at least 34 bytes long and with the file name inside the record
(filename length at most length - 33).  Then entry `k` is the same in both results:
it is the decoding of the record's own bytes, whatever the working buffer held
before. -/
theorem kth_entry_from_own_record (fuel fuel' k : Nat) (stack stack' : Nat → u8)
    (r r' : SectorSource) (e e' : IsoFileDescriptor) (st st' : InitState)
    (files files' : List IsoFileDescriptor)
    (hp : InitPasses (IsoFile.stream r e) k (InitState.start stack e) = some st)
    (hp' : InitPasses (IsoFile.stream r' e') k (InitState.start stack' e') = some st')
    (hinit : Init fuel stack r e = .ok files)
    (hinit' : Init fuel' stack' r' e' = .ok files')
    (hrem : 4 ≤ st.remainingSize) (hrem' : 4 ≤ st'.remainingSize)
    (hlen : 34 ≤ (streamByte (IsoFile.stream r e) st.pos).val)
    (hname : (streamByte (IsoFile.stream r e) (st.pos + 32)).val + 33
      ≤ (streamByte (IsoFile.stream r e) st.pos).val)
    (hsame : ∀ j < (streamByte (IsoFile.stream r e) st.pos).val,
      IsoFile.stream r' e' (st'.pos + j) = IsoFile.stream r e (st.pos + j)) :
    files[k]? = some (IsoFileDescriptor.Load
        (fun j => streamByte (IsoFile.stream r e) (st.pos + j))
        (streamByte (IsoFile.stream r e) st.pos).val)
      ∧ files'[k]? = files[k]? := by
  have hbyte : ∀ j < (streamByte (IsoFile.stream r e) st.pos).val,
      streamByte (IsoFile.stream r' e') (st'.pos + j)
        = streamByte (IsoFile.stream r e) (st.pos + j) := by
    intro j hj
    simp only [streamByte, hsame j hj]
  have h0 : streamByte (IsoFile.stream r' e') st'.pos
      = streamByte (IsoFile.stream r e) st.pos := by
    have := hbyte 0 (by omega)
    simpa only [Nat.add_zero] using this
  have h1 := Init_kth_entry fuel k stack r e st files hp hinit hrem hlen hname
  have h2 := Init_kth_entry fuel' k stack' r' e' st' files' hp' hinit' hrem'
    (by rw [h0]; exact hlen) (by rw [h0, hbyte 32 (by omega)]; exact hname)
  refine ⟨h1, ?_⟩
  rw [h1, h2, h0]
  congr 1
  exact Load_congr _ _ _ _ (streamByte (IsoFile.stream r e) st.pos).val hlen
    (by rw [hbyte 32 (by omega)]; exact hname) (fun j hj => hbyte j hj)

theorem kth_entry_from_own_record_witness :
    (exampleRootRecords.map decodeRecord)[1]?
        = some (IsoFileDescriptor.Load
            (fun j => streamByte (IsoFile.stream exampleImage exampleRootEntry) (34 + j)) 34)
      ∧ (exampleDir1Records.map decodeRecord)[1]?
        = (exampleRootRecords.map decodeRecord)[1]? :=
  kth_entry_from_own_record 5 5 1 zeroStack (fun _ => 7) exampleImage exampleImage
    exampleRootEntry (decodeRecord (mkRecord 21 2048 2 nameDIR1))
    (InitBody (streamByte (IsoFile.stream exampleImage exampleRootEntry))
      (InitState.start zeroStack exampleRootEntry))
    (InitBody
      (streamByte (IsoFile.stream exampleImage (decodeRecord (mkRecord 21 2048 2 nameDIR1))))
      (InitState.start (fun _ => 7) (decodeRecord (mkRecord 21 2048 2 nameDIR1))))
    (exampleRootRecords.map decodeRecord) (exampleDir1Records.map decodeRecord)
    rfl rfl (by decide) (by decide) (by decide) (by decide) (by decide) (by decide)
    (by decide)

/-- C17, as stated, fails: the two example extents have byte-identical second
records `4, 0, 0, 0` at offset 42, and the second entries enumerated from them
differ: each takes its size and its name from the first record of its extent, whose
bytes are still in the working buffer. -/
theorem second_entry_from_stale_buffer :
    (∀ j < 4, IsoFile.stream staleImageA staleEntry (42 + j)
        = IsoFile.stream staleImageB staleEntry (42 + j))
      ∧ (Init 3 zeroStack staleImageA staleEntry).bind
            (fun fs => .ok (fs.length, fs[1]?.map fun f => (f.size, f.name)))
          = .ok (2, some (1024, nameFILE1))
      ∧ (Init 3 zeroStack staleImageB staleEntry).bind
            (fun fs => .ok (fs.length, fs[1]?.map fun f => (f.size, f.name)))
          = .ok (2, some (512, nameFILE2))
      ∧ (Init 3 zeroStack staleImageA staleEntry).bind (fun fs => .ok fs[1]?)
          ≠ (Init 3 zeroStack staleImageB staleEntry).bind (fun fs => .ok fs[1]?) := by
  decide

theorem scanLoop_never_ends (r : SectorSource)
    (hall : ∀ lba, hasCD001 (r lba) = true ∧ (r lba 0).val ≠ 255) :
    ∀ (fuel : Nat) (st : ScanState), st.done = false → scanLoop r fuel st = .outOfFuel := by
  intro fuel
  induction fuel with
  | zero => intro st _; rfl
  | succ fuel ih =>
    intro st hdone
    rw [scanLoop_step r fuel st hdone (hall st.i).1]
    apply ih
    rw [scanBody_done r st (hall st.i).2]
    exact hdone

/-- C18, amended: when the blocks 16, 17, ... of a sector source reach, at block
16 + n, a terminator or a sector without the identifier "CD001", the loop of the
root constructor ends after reading the blocks 16 to 16 + n, and the constructor
then throws `FileNotFound` or goes on to enumerate the root directory record it has
decoded. -/
theorem root_scan_ends_at_terminator_or_bad_sector (fuel n : Nat) (stack : Nat → u8)
    (r : SectorSource)
    (hn : 16 + n < 2 ^ 32)
    (hseq : ∀ k < n, hasCD001 (r (16 + k)) = true ∧ (r (16 + k) 0).val ≠ 255)
    (hend : hasCD001 (r (16 + n)) = false ∨ (r (16 + n) 0).val = 255)
    (hfuel : n + 2 ≤ fuel) :
    ∃ st, scanLoop r fuel ScanState.start = .ok st
      ∧ st.i ≤ 16 + n + 1
      ∧ (IsoDirectory.root fuel stack r = .throws .FileNotFound
          ∨ IsoDirectory.root fuel stack r
              = (Init fuel stack r st.rootDirEntry).bind fun files =>
                  .ok { internalReader := r, files := files, m_fstype := st.m_fstype }) := by
  obtain ⟨f, rfl⟩ : ∃ f, fuel = n + (f + 2) := ⟨fuel - n - 2, by omega⟩
  have hi : ScanState.start.i = 16 := rfl
  have hpi := scanPasses_i r n ScanState.start (by rw [hi]; omega)
  have hpd := scanPasses_done r n ScanState.start (by rw [hi]; omega)
    (fun k hk => by rw [hi]; exact (hseq k hk).2)
  rw [hi] at hpi
  have hscan := scanLoop_passes r n (f + 2) ScanState.start rfl (by rw [hi]; omega)
    (fun k hk => by rw [hi]; exact hseq k hk)
  have hroot : ∀ st, scanLoop r (n + (f + 2)) ScanState.start = .ok st →
      (IsoDirectory.root (n + (f + 2)) stack r = .throws .FileNotFound
        ∨ IsoDirectory.root (n + (f + 2)) stack r
            = (Init (n + (f + 2)) stack r st.rootDirEntry).bind fun files =>
                .ok { internalReader := r, files := files, m_fstype := st.m_fstype }) := by
    intro st hst
    simp only [IsoDirectory.root, hst, Outcome.bind]
    cases st.isValid
    · left; rfl
    · right; rfl
  by_cases hid : hasCD001 (r (16 + n)) = true
  · have h255 : (r (16 + n) 0).val = 255 := by
      rcases hend with h | h
      · rw [hid] at h; cases h
      · exact h
    rw [scanLoop_terminator r f _ (by rw [hpd]; rfl) (by rw [hpi]; exact hid)
      (by rw [hpi]; exact h255)] at hscan
    refine ⟨_, hscan, ?_, hroot _ hscan⟩
    show ((scanPasses r n ScanState.start).i + 1) % 2 ^ 32 ≤ 16 + n + 1
    rw [hpi]
    exact Nat.mod_le _ _
  · have hbad : hasCD001 (r (16 + n)) = false := by
      cases h : hasCD001 (r (16 + n))
      · rfl
      · exact absurd h hid
    rw [show f + 2 = (f + 1) + 1 from rfl,
      scanLoop_break r (f + 1) _ (by rw [hpd]; rfl) (by rw [hpi]; exact hbad)] at hscan
    refine ⟨_, hscan, ?_, hroot _ hscan⟩
    rw [hpi]
    omega

theorem root_scan_ends_at_terminator_or_bad_sector_witness :
    ∃ st, scanLoop exampleImage 5 ScanState.start = .ok st
      ∧ st.i ≤ 16 + 1 + 1
      ∧ (IsoDirectory.root 5 zeroStack exampleImage = .throws .FileNotFound
          ∨ IsoDirectory.root 5 zeroStack exampleImage
              = (Init 5 zeroStack exampleImage st.rootDirEntry).bind fun files =>
                  .ok { internalReader := exampleImage, files := files,
                        m_fstype := st.m_fstype }) :=
  root_scan_ends_at_terminator_or_bad_sector 5 1 zeroStack exampleImage (by decide)
    (by decide) (by decide) (by decide)

/-- C18, as stated, fails: on an image in which every block is a boot record (the
identifier "CD001" with type 0) the loop of the root constructor is still running
after any number of passes; the constructor neither returns nor throws. -/
theorem root_scan_without_terminator_never_ends :
    (hasCD001 (bootRecordsImage 16) = true ∧ (bootRecordsImage 16 0).val = 0)
      ∧ ∀ fuel, IsoDirectory.root fuel zeroStack bootRecordsImage = .outOfFuel := by
  refine ⟨by decide, ?_⟩
  intro fuel
  have hall : ∀ lba, hasCD001 (bootRecordsImage lba) = true
      ∧ (bootRecordsImage lba 0).val ≠ 255 := fun _ => by
    show hasCD001 (mkDescriptor 0 []) = true ∧ (mkDescriptor 0 [] 0).val ≠ 255
    decide
  simp only [IsoDirectory.root, scanLoop_never_ends bootRecordsImage hall fuel
    ScanState.start rfl, Outcome.bind]

/-- C19, on the code: for the path `/` the segments are two empty strings when
every separator ends a segment, and there is no segment at all when empty segments
are left out; `FindFile` then calls `back()` on an empty first segment, or `front()`
on an empty segment list, and both are undefined.  The same holds for `\`. -/
theorem FindFile_separator_path_undefined :
    (Path.SplitWindowsPath [47] = [[], []]
        ∧ exampleRoot.FindFile Path.SplitWindowsPath 5 zeroStack [47] = .undefined
        ∧ exampleRoot.FindFile Path.SplitWindowsPath 5 zeroStack [92] = .undefined)
      ∧ (splitOnSeparators [47] = []
        ∧ exampleRoot.FindFile splitOnSeparators 5 zeroStack [47] = .undefined
        ∧ exampleRoot.FindFile splitOnSeparators 5 zeroStack [92] = .undefined) := by
  decide

end IsoFS
